import Mathlib

/-!
Verification development for a four-stage language processor
(scanner, parser, semantic analyzer, tree-walking interpreter).

The definitions below are a shallow embedding of the Python sources:

* `Interp.*`  embeds `src/_4_interpretation/interpreter.py` together with
  `src/_4_interpretation/call_stack.py` (activation records, call stack,
  the statement/expression evaluator with `give`/`skip`/`stop` signals);
* `Sem.*`     embeds the scope-chain checks of
  `src/_3_semantic_analysis/semantic_analyzer.py` and the scope structure of
  `src/_3_semantic_analysis/symbol_table.py`;
* `Parse.*`   embeds the statement dispatch and the expression grammar of
  `src/2_syntactic_analysis/syntactic_analyser.py`;
* `Lex.*`     embeds `src/1_lexical_analysis/lexical_analyzer.py` with the
  token tables of `src/lexical_analysis/tokens.py`.

Modelling conventions, used uniformly:

* Python `dict` with string keys becomes an insertion-ordered association
  list (`dictGet`/`dictSet`), which has the same lookup/update semantics.
* Python exceptions become explicit outcome values that are threaded through
  the state (mutations performed before the raise are kept, exactly as with
  Python's mutable objects); an exception that Python would not catch
  anywhere in the modelled code (`TypeError`, `AttributeError`, `IndexError`)
  is the designated outcome `Exc.host`.
* Python `float` is idealized as `ℚ`; every operation exercised by a theorem
  in this file is exact in that idealization.  The two places where real
  floats are not rational (`**` with a non-integral exponent, the textual
  rendering of a non-integral float) are marked in their doc comments and are
  not relied on by any theorem.
* Unbounded loops and recursion are driven by a fuel parameter; `none` means
  the fuel ran out (a proxy for a computation that is still running).
* Error values carry the error code and, for lexical errors, the recorded
  position; the human-readable message strings are not modelled.
-/

namespace Interp

/-- Runtime values of the interpreted language: `ValueType = int | float |
str | bool` from `src/_4_interpretation/interpreter.py`. -/
inductive Value where
  | int (z : Int)
  | float (q : ℚ)
  | str (s : String)
  | bool (b : Bool)
deriving DecidableEq, Repr

/-- The members of `ErrorCode` referenced by the semantic analyzer and the
interpreter (`utils.error_handling.ErrorCode` for the `_3`/`_4` pipeline;
the enum itself is reconstructed from its usage sites). -/
inductive ErrorCode where
  | UNDECLARED_IDENTIFIER
  | DIVISION_BY_ZERO
  | INVALID_OPERATION
  | FUNCTION_EMPTY_GIVE
  | FUNCTION_NOT_GIVING
  | PROCEDURE_GIVING_VALUE
  | SEM_DUPLICATE_IDENTIFIER
  | SEM_UNDECLARED_IDENTIFIER
  | SEM_ASSIGNMENT_TO_CONSTANT
  | SEM_WRONG_SYMBOL_TYPE
  | SEM_WRONG_NUMBER_OF_ARGUMENTS
  | SEM_FUNCTION_EMPTY_GIVE
  | SEM_PROCEDURE_GIVING_VALUE
  | SEM_SKIP_STATEMENT_OUTSIDE_WHILE
  | SEM_STOP_STATEMENT_OUTSIDE_WHILE
deriving DecidableEq, Repr

/-- An exceptional outcome while the interpreter walks the tree:
`SkipException`, `StopException`, `RuntimeError(code, …)`, or a host-level
Python exception outside the error taxonomy (`TypeError` on a bad operand
combination, `AttributeError` on a missing callable, `IndexError` on an
empty stack). -/
inductive Exc where
  | skipSignal
  | stopSignal
  | rte (code : ErrorCode)
  | host
deriving DecidableEq, Repr

/-- Numeric view of a value; `bool` is an `int` subclass in Python, so it
participates in arithmetic as `0`/`1`. `str` has no numeric view. -/
inductive PyNum where
  | I (z : Int)
  | F (q : ℚ)
deriving DecidableEq, Repr

def PyNum.toQ : PyNum → ℚ
  | .I z => (z : ℚ)
  | .F q => q

def PyNum.toValue : PyNum → Value
  | .I z => .int z
  | .F q => .float q

def Value.toNum : Value → Option PyNum
  | .int z => some (.I z)
  | .float q => some (.F q)
  | .bool b => some (.I (if b then 1 else 0))
  | .str _ => none

def Value.isStr : Value → Bool
  | .str _ => true
  | _ => false

/-- Python `value == 0`: true for `0`, `0.0` and `False`; a string never
equals `0`. This is the test `right_operand == 0` guarding `/`, `//`, `%`. -/
def Value.isZero : Value → Bool
  | .int z => z == 0
  | .float q => q == 0
  | .bool b => !b
  | .str _ => false

/-- Python `str()` of a float, idealized over `ℚ`: exact for integer-valued
floats (`2.0 ↦ "2.0"`); the non-integral branch is a placeholder rendering
(no theorem in this file evaluates it). -/
def pyStrFloat (q : ℚ) : String :=
  if q.den = 1 then toString q.num ++ ".0" else toString q.num ++ "/" ++ toString q.den

/-- Python `str()` of a runtime value, as used by `+`-concatenation and by
`show` (via `print`). -/
def Value.pyStr : Value → String
  | .str s => s
  | .int z => toString z
  | .bool b => if b then "True" else "False"
  | .float q => pyStrFloat q

/-- Python string repetition `s * z` (negative counts give `""`). -/
def strRepeat (s : String) (z : Int) : String :=
  String.join (List.replicate z.toNat s)

/-- Python `+` on two numbers, with int/float promotion. -/
def numAdd : PyNum → PyNum → PyNum
  | .I a, .I b => .I (a + b)
  | a, b => .F (a.toQ + b.toQ)

def numSub : PyNum → PyNum → PyNum
  | .I a, .I b => .I (a - b)
  | a, b => .F (a.toQ - b.toQ)

def numMul : PyNum → PyNum → PyNum
  | .I a, .I b => .I (a * b)
  | a, b => .F (a.toQ * b.toQ)

/-- Python `//`: floor division, int when both operands are ints
(`Int.fdiv` is Python's floor division), float otherwise. The zero divisor
is excluded by the caller's guard. -/
def numFloorDiv : PyNum → PyNum → PyNum
  | .I a, .I b => .I (Int.fdiv a b)
  | a, b => .F (⌊a.toQ / b.toQ⌋ : Int)

/-- Python `%`: remainder with the divisor's sign (`Int.fmod` matches
Python's `%` on ints); on floats `a % b = a - b·⌊a/b⌋`. -/
def numMod : PyNum → PyNum → PyNum
  | .I a, .I b => .I (Int.fmod a b)
  | a, b => .F (a.toQ - b.toQ * (⌊a.toQ / b.toQ⌋ : Int))

/-- Python `**`. A zero base with a negative exponent raises
`ZeroDivisionError` (a host exception, not the interpreter's
division-by-zero `RuntimeError`). A non-integral float exponent produces an
irrational real in Python; that branch is outside the rational idealization
and is evaluated by no theorem in this file. -/
def numPow : PyNum → PyNum → Except Exc PyNum
  | .I a, .I b =>
    if 0 ≤ b then .ok (.I (a ^ b.toNat))
    else if a = 0 then .error .host
    else .ok (.F ((a : ℚ) ^ b))
  | a, b =>
    match b with
    | .I e =>
      if 0 ≤ e then .ok (.F (a.toQ ^ e.toNat))
      else if a.toQ = 0 then .error .host
      else .ok (.F (a.toQ ^ e))
    | .F q =>
      if q.den = 1 then
        if 0 ≤ q.num then .ok (.F (a.toQ ^ q.num.toNat))
        else if a.toQ = 0 then .error .host
        else .ok (.F (a.toQ ^ q.num))
      else .ok (.F 0)

/-- Value-level core of `Interpreter.visit_NodeBinaryArithmeticOperation`
(the dispatch applied after both operands have been evaluated).  The
operator is matched as a string exactly as in the source; an unknown
operator is `RuntimeError(INVALID_OPERATION)`.  `+` concatenates the `str()`
forms when either operand is a string; `*` keeps Python's string repetition;
the remaining string/number combinations are host-level `TypeError`s
(string `%`-formatting is likewise modelled as host-level). -/
def applyBinaryArithmetic (operator : String) (l r : Value) : Except Exc Value :=
  if operator = "+" then
    if l.isStr || r.isStr then .ok (.str (l.pyStr ++ r.pyStr))
    else
      match l.toNum, r.toNum with
      | some a, some b => .ok (numAdd a b).toValue
      | _, _ => .error .host
  else if operator = "-" then
    match l.toNum, r.toNum with
    | some a, some b => .ok (numSub a b).toValue
    | _, _ => .error .host
  else if operator = "*" then
    match l, r with
    | .str s, .int z => .ok (.str (strRepeat s z))
    | .str s, .bool b => .ok (.str (strRepeat s (if b then 1 else 0)))
    | .int z, .str s => .ok (.str (strRepeat s z))
    | .bool b, .str s => .ok (.str (strRepeat s (if b then 1 else 0)))
    | l, r =>
      match l.toNum, r.toNum with
      | some a, some b => .ok (numMul a b).toValue
      | _, _ => .error .host
  else if operator = "/" then
    if r.isZero then .error (.rte .DIVISION_BY_ZERO)
    else
      match l.toNum, r.toNum with
      | some a, some b => .ok (.float (a.toQ / b.toQ))
      | _, _ => .error .host
  else if operator = "//" then
    if r.isZero then .error (.rte .DIVISION_BY_ZERO)
    else
      match l.toNum, r.toNum with
      | some a, some b => .ok (numFloorDiv a b).toValue
      | _, _ => .error .host
  else if operator = "%" then
    if r.isZero then .error (.rte .DIVISION_BY_ZERO)
    else
      match l.toNum, r.toNum with
      | some a, some b => .ok (numMod a b).toValue
      | _, _ => .error .host
  else if operator = "**" then
    match l.toNum, r.toNum with
    | some a, some b =>
      match numPow a b with
      | .ok n => .ok n.toValue
      | .error e => .error e
    | _, _ => .error .host
  else .error (.rte .INVALID_OPERATION)

/-- Model of `Interpreter.visit_NodeArithmeticExpressionAsBoolean` on an already
evaluated value: booleans pass through, numbers are compared with zero,
strings with the empty string. -/
def truthy : Value → Bool
  | .bool b => b
  | .int z => z != 0
  | .float q => q != 0
  | .str s => s.length > 0

/-- The declared type attached to a declaration or parameter
(`node.type.name`, one of the built-in type names `number`/`string`/
`boolean` of `src/_1_lexical_analysis/tokens.py`). -/
inductive TyName where
  | number
  | string
  | boolean
deriving DecidableEq, Repr

/-- Model of `Interpreter.DEFAULT_VALUES`: the value given to a declared but
uninitialized variable. -/
def defaultValue : TyName → Value
  | .number => .int 0
  | .string => .str ""
  | .boolean => .bool false

/-- Expression nodes of `src/_2_syntactic_analysis/ast.py`, restricted to
the variants the claims exercise.  `NodeNumberLiteral` stores a lexeme and
`visit_NodeNumberLiteral` parses it (int without a dot, float with one);
the embedding carries the parsed result directly as `intLit`/`floatLit`.
`strLit` carries the already unquoted text (`lexeme[1:-1]`), `boolLit` the
result of `lexeme == "true"`.  Operators are carried as strings, exactly as
the interpreter matches them.  `NodeComparisonExpression`,
`NodeUnaryArithmeticOperation` and `NodeUnaryBooleanOperation` are not
needed by any claim and are omitted. -/
inductive Expr where
  | intLit (z : Int)
  | floatLit (q : ℚ)
  | strLit (s : String)
  | boolLit (b : Bool)
  | ident (name : String)
  | binArith (left : Expr) (operator : String) (right : Expr)
  | binBool (left : Expr) (logicalOperator : String) (right : Expr)
  | arithAsBool (expression : Expr)
  | funcCall (name : String) (args : List Expr)

/-- Statement nodes of `src/_2_syntactic_analysis/ast.py` (a block is its
statement list; an absent statement/expression list is the empty list, which
the Python code treats identically).  `NodeForStatement` is not needed by
any claim and is omitted. -/
inductive Stmt where
  | varDecl (ty : TyName) (identifiers : List String) (expressions : List Expr)
  | constDecl (ty : TyName) (identifiers : List String) (expressions : List Expr)
  | assign (name : String) (expression : Expr)
  | give (expression : Option Expr)
  | showStmt (expression : Expr)
  | ifStmt (condition : Expr) (block : List Stmt)
      (elifs : List (Expr × List Stmt)) (elseBlock : Option (List Stmt))
  | whileStmt (condition : Expr) (block : List Stmt)
  | skipStmt
  | stopStmt
  | funcDecl (name : String) (params : List (String × TyName))
      (giveType : TyName) (block : List Stmt)
  | procDecl (name : String) (params : List (String × TyName)) (block : List Stmt)
  | funcCallStmt (name : String) (args : List Expr)
  | procCall (name : String) (args : List Expr)

/-- Model of `ActivationRecordType` from `src/_4_interpretation/call_stack.py`. -/
inductive ARType where
  | PROGRAM
  | FUNCTION
  | PROCEDURE
deriving DecidableEq, Repr

/-- Model of `ActivationRecord`: name, kind tag, nesting level and the
insertion-ordered member mapping. -/
structure ActivationRecord where
  name : String
  type : ARType
  nesting_level : Nat
  members : List (String × Value)
deriving DecidableEq, Repr

/-- Insertion-ordered dictionary lookup (`dict.get`). -/
def dictGet {α : Type} (m : List (String × α)) (k : String) : Option α :=
  match m.find? (fun p => p.1 == k) with
  | some p => some p.2
  | none => none

/-- Insertion-ordered dictionary update (`dict[k] = v`): overwrite in place,
append when absent. -/
def dictSet {α : Type} : List (String × α) → String → α → List (String × α)
  | [], k, v => [(k, v)]
  | (k', v') :: rest, k, v =>
    if k' == k then (k, v) :: rest else (k', v') :: dictSet rest k v

/-- Model of `FunctionSymbol` as stored by `visit_NodeFunctionDeclaration`:
name, parameter list (name and declared type), give type, body block. -/
structure FunctionSymbol where
  identifier : String
  parameters : List (String × TyName)
  give_type : TyName
  block : List Stmt

/-- Model of `ProcedureSymbol` as stored by `visit_NodeProcedureDeclaration`. -/
structure ProcedureSymbol where
  identifier : String
  parameters : List (String × TyName)
  block : List Stmt

/-- The interpreter's mutable state: the call stack (head of the list is the
top of the stack), the two callable tables, and the text written by `show`
statements (in program order). -/
structure State where
  callStack : List ActivationRecord
  functions : List (String × FunctionSymbol)
  procedures : List (String × ProcedureSymbol)
  output : List String

/-- Model of `CallStack.pop` applied to the state (popping an empty stack cannot be
observed by any modelled run: the interpreter pops only after a push). -/
def popTop (st : State) : State :=
  { st with callStack := st.callStack.tail }

/-- Write a member into the activation record on top of the stack (Python
mutates the record returned by `peek()`); `none` when the stack is empty
(Python would raise `IndexError` on the `peek`). -/
def setTopMember (k : String) (v : Value) (st : State) : Option State :=
  match st.callStack with
  | [] => none
  | r :: rest =>
    some { st with callStack := { r with members := dictSet r.members k v } :: rest }

/-- The activation record built by `visit_NodeFunctionCall` /
`visit_NodeProcedureCall`: a record one nesting level above the caller's,
whose members start as a copy of **all** the caller's members
(`for var_name, var_value in current_record.members.items(): …`) and are
then overwritten by the parameter bindings, pairing parameters with the
evaluated arguments positionally (`zip`, which drops the unmatched tail). -/
def buildCalleeRecord (caller : ActivationRecord) (calleeName : String)
    (ty : ARType) (params : List String) (args : List Value) : ActivationRecord :=
  { name := calleeName
    type := ty
    nesting_level := caller.nesting_level + 1
    members := (params.zip args).foldl (fun m p => dictSet m p.1 p.2) caller.members }

/-- Result of evaluating an expression: a value, or a propagating exception. -/
inductive EvalOut where
  | ok (v : Value)
  | ex (e : Exc)
deriving DecidableEq, Repr

/-- Result of executing a statement or block: normal completion, a
give-signal (the `{"give": value}` dictionary, `v = none` for a bare
`give`), or a propagating exception. -/
inductive ExecOut where
  | norm
  | give (v : Option Value)
  | ex (e : Exc)
deriving DecidableEq, Repr

mutual

/-- Model of `Interpreter.visit` on an expression node.  Identifier lookup reads the
top activation record only (`visit_NodeIdentifier`); a missing binding is
`RuntimeError(UNDECLARED_IDENTIFIER)`.  Binary boolean operations
short-circuit exactly as `visit_NodeBinaryBooleanOperation` does. -/
def evalExpr : Nat → Expr → State → Option (EvalOut × State)
  | 0, _, _ => none
  | _ + 1, .intLit z, st => some (.ok (.int z), st)
  | _ + 1, .floatLit q, st => some (.ok (.float q), st)
  | _ + 1, .strLit s, st => some (.ok (.str s), st)
  | _ + 1, .boolLit b, st => some (.ok (.bool b), st)
  | _ + 1, .ident name, st =>
    match st.callStack with
    | [] => some (.ex .host, st)
    | record :: _ =>
      match dictGet record.members name with
      | some v => some (.ok v, st)
      | none => some (.ex (.rte .UNDECLARED_IDENTIFIER), st)
  | n + 1, .binArith l operator r, st =>
    match evalExpr n l st with
    | none => none
    | some (.ex e, st1) => some (.ex e, st1)
    | some (.ok lv, st1) =>
      match evalExpr n r st1 with
      | none => none
      | some (.ex e, st2) => some (.ex e, st2)
      | some (.ok rv, st2) =>
        match applyBinaryArithmetic operator lv rv with
        | .ok v => some (.ok v, st2)
        | .error e => some (.ex e, st2)
  | n + 1, .binBool l op r, st =>
    if op = "and" then
      match evalBoolExpr n l st with
      | none => none
      | some (.error e, st1) => some (.ex e, st1)
      | some (.ok b, st1) =>
        if !b then some (.ok (.bool false), st1)
        else
          match evalBoolExpr n r st1 with
          | none => none
          | some (.error e, st2) => some (.ex e, st2)
          | some (.ok b2, st2) => some (.ok (.bool b2), st2)
    else if op = "or" then
      match evalBoolExpr n l st with
      | none => none
      | some (.error e, st1) => some (.ex e, st1)
      | some (.ok b, st1) =>
        if b then some (.ok (.bool true), st1)
        else
          match evalBoolExpr n r st1 with
          | none => none
          | some (.error e, st2) => some (.ex e, st2)
          | some (.ok b2, st2) => some (.ok (.bool b2), st2)
    else some (.ex (.rte .INVALID_OPERATION), st)
  | n + 1, .arithAsBool e, st =>
    match evalExpr n e st with
    | none => none
    | some (.ex ex, st1) => some (.ex ex, st1)
    | some (.ok v, st1) => some (.ok (.bool (truthy v)), st1)
  | n + 1, .funcCall name args, st => callFunction n name args st

/-- Model of `Interpreter._evaluate_boolean_expression`: evaluate, then demand a
boolean; any other value is `RuntimeError(INVALID_OPERATION)`. -/
def evalBoolExpr : Nat → Expr → State → Option (Except Exc Bool × State)
  | 0, _, _ => none
  | n + 1, e, st =>
    match evalExpr n e st with
    | none => none
    | some (.ex ex, st1) => some (.error ex, st1)
    | some (.ok (.bool b), st1) => some (.ok b, st1)
    | some (.ok _, st1) => some (.error (.rte .INVALID_OPERATION), st1)

/-- Left-to-right evaluation of a call's argument list in the caller's
frame. -/
def evalArgs : Nat → List Expr → State → Option (Except Exc (List Value) × State)
  | _, [], st => some (.ok [], st)
  | 0, _ :: _, _ => none
  | n + 1, e :: rest, st =>
    match evalExpr n e st with
    | none => none
    | some (.ex ex, st1) => some (.error ex, st1)
    | some (.ok v, st1) =>
      match evalArgs n rest st1 with
      | none => none
      | some (.error ex, st2) => some (.error ex, st2)
      | some (.ok vs, st2) => some (.ok (v :: vs), st2)

/-- Model of `Interpreter.visit_NodeFunctionCall`.  The symbol is fetched first
(`dict.get`, possibly `None`), the arguments are evaluated, the callee
record is built from the caller's record, pushed, the body runs, and the
record is popped — but the pop statement is only reached when the body
returns normally: an exception (`skip`/`stop` signal, `RuntimeError`, host
exception) propagates past it and the record stays on the stack.  After a
normal return: a give-signal with a value is the call's result, a bare give
is `RuntimeError(FUNCTION_EMPTY_GIVE)`, and no give at all is
`RuntimeError(FUNCTION_NOT_GIVING)`.  A missing symbol is the host-level
`AttributeError` on `None` (raised when the symbol is first used, after the
arguments were already evaluated). -/
def callFunction : Nat → String → List Expr → State → Option (EvalOut × State)
  | 0, _, _, _ => none
  | n + 1, name, args, st =>
    match evalArgs n args st with
    | none => none
    | some (.error ex, st1) => some (.ex ex, st1)
    | some (.ok vals, st1) =>
      match dictGet st.functions name with
      | none => some (.ex .host, st1)
      | some sym =>
        match st1.callStack with
        | [] => some (.ex .host, st1)
        | caller :: _ =>
          let record := buildCalleeRecord caller sym.identifier .FUNCTION
            (sym.parameters.map Prod.fst) vals
          match execBlock n sym.block { st1 with callStack := record :: st1.callStack } with
          | none => none
          | some (.ex ex, st3) => some (.ex ex, st3)
          | some (.give (some v), st3) => some (.ok v, popTop st3)
          | some (.give none, st3) => some (.ex (.rte .FUNCTION_EMPTY_GIVE), popTop st3)
          | some (.norm, st3) => some (.ex (.rte .FUNCTION_NOT_GIVING), popTop st3)

/-- Model of `Interpreter.visit_NodeProcedureCall`: same call protocol, except that
after a normal return a give-signal **with** a value is
`RuntimeError(PROCEDURE_GIVING_VALUE)` and everything else (bare give or
falling off the end) completes normally with no result.  As in the function
case, an exception from the body propagates past the pop. -/
def callProcedure : Nat → String → List Expr → State → Option (ExecOut × State)
  | 0, _, _, _ => none
  | n + 1, name, args, st =>
    match evalArgs n args st with
    | none => none
    | some (.error ex, st1) => some (.ex ex, st1)
    | some (.ok vals, st1) =>
      match dictGet st.procedures name with
      | none => some (.ex .host, st1)
      | some sym =>
        match st1.callStack with
        | [] => some (.ex .host, st1)
        | caller :: _ =>
          let record := buildCalleeRecord caller sym.identifier .PROCEDURE
            (sym.parameters.map Prod.fst) vals
          match execBlock n sym.block { st1 with callStack := record :: st1.callStack } with
          | none => none
          | some (.ex ex, st3) => some (.ex ex, st3)
          | some (.give (some _), st3) =>
            some (.ex (.rte .PROCEDURE_GIVING_VALUE), popTop st3)
          | some (.give none, st3) => some (.norm, popTop st3)
          | some (.norm, st3) => some (.norm, popTop st3)

/-- Model of `Interpreter.visit_NodeVariableDeclaration`: each identifier in order
gets its positional initializer when one exists, the type's default value
otherwise; the values land in the record on top of the stack. -/
def varDeclLoop : Nat → TyName → List String → List Expr → State → Option (ExecOut × State)
  | _, _, [], _, st => some (.norm, st)
  | 0, _, _ :: _, _, _ => none
  | n + 1, ty, id :: ids, [], st =>
    match setTopMember id (defaultValue ty) st with
    | none => some (.ex .host, st)
    | some st1 => varDeclLoop n ty ids [] st1
  | n + 1, ty, id :: ids, e :: es, st =>
    match evalExpr n e st with
    | none => none
    | some (.ex ex, st1) => some (.ex ex, st1)
    | some (.ok v, st1) =>
      match setTopMember id v st1 with
      | none => some (.ex .host, st1)
      | some st2 => varDeclLoop n ty ids es st2

/-- Model of `Interpreter.visit_NodeConstantDeclaration`: initializers are mandatory;
a missing one is the host-level `IndexError` on `node.expressions[index]`. -/
def constDeclLoop : Nat → List String → List Expr → State → Option (ExecOut × State)
  | _, [], _, st => some (.norm, st)
  | 0, _ :: _, _, _ => none
  | _ + 1, _ :: _, [], st => some (.ex .host, st)
  | n + 1, id :: ids, e :: es, st =>
    match evalExpr n e st with
    | none => none
    | some (.ex ex, st1) => some (.ex ex, st1)
    | some (.ok v, st1) =>
      match setTopMember id v st1 with
      | none => some (.ex .host, st1)
      | some st2 => constDeclLoop n ids es st2

/-- The `elif`/`else` tail of `Interpreter.visit_NodeIfStatement`. -/
def elifLoop : Nat → List (Expr × List Stmt) → Option (List Stmt) → State →
    Option (ExecOut × State)
  | 0, _, _, _ => none
  | _ + 1, [], none, st => some (.norm, st)
  | n + 1, [], some b, st => execBlock n b st
  | n + 1, (c, b) :: rest, els, st =>
    match evalBoolExpr n c st with
    | none => none
    | some (.error ex, st1) => some (.ex ex, st1)
    | some (.ok true, st1) => execBlock n b st1
    | some (.ok false, st1) => elifLoop n rest els st1

/-- Model of `Interpreter.visit_NodeWhileStatement`.  The `try` wraps the condition
evaluation and the body: a skip-signal from either restarts the loop, a
stop-signal breaks it, a give-signal from the body is returned upward, and
a `RuntimeError` (or host exception) propagates. -/
def whileLoop : Nat → Expr → List Stmt → State → Option (ExecOut × State)
  | 0, _, _, _ => none
  | n + 1, cond, b, st =>
    match evalBoolExpr n cond st with
    | none => none
    | some (.error .skipSignal, st1) => whileLoop n cond b st1
    | some (.error .stopSignal, st1) => some (.norm, st1)
    | some (.error ex, st1) => some (.ex ex, st1)
    | some (.ok false, st1) => some (.norm, st1)
    | some (.ok true, st1) =>
      match execBlock n b st1 with
      | none => none
      | some (.give v, st2) => some (.give v, st2)
      | some (.norm, st2) => whileLoop n cond b st2
      | some (.ex .skipSignal, st2) => whileLoop n cond b st2
      | some (.ex .stopSignal, st2) => some (.norm, st2)
      | some (.ex ex, st2) => some (.ex ex, st2)

/-- Model of `Interpreter.visit` on a statement node. -/
def execStmt : Nat → Stmt → State → Option (ExecOut × State)
  | 0, _, _ => none
  | n + 1, stmt, st =>
    match stmt with
    | .varDecl ty ids exprs => varDeclLoop n ty ids exprs st
    | .constDecl _ ids exprs => constDeclLoop n ids exprs st
    | .assign name e =>
      match evalExpr n e st with
      | none => none
      | some (.ex ex, st1) => some (.ex ex, st1)
      | some (.ok v, st1) =>
        match setTopMember name v st1 with
        | none => some (.ex .host, st1)
        | some st2 => some (.norm, st2)
    | .give none => some (.give none, st)
    | .give (some e) =>
      match evalExpr n e st with
      | none => none
      | some (.ex ex, st1) => some (.ex ex, st1)
      | some (.ok v, st1) => some (.give (some v), st1)
    | .showStmt e =>
      match evalExpr n e st with
      | none => none
      | some (.ex ex, st1) => some (.ex ex, st1)
      | some (.ok v, st1) => some (.norm, { st1 with output := st1.output ++ [v.pyStr] })
    | .ifStmt cond blk elifs els =>
      match evalBoolExpr n cond st with
      | none => none
      | some (.error ex, st1) => some (.ex ex, st1)
      | some (.ok true, st1) => execBlock n blk st1
      | some (.ok false, st1) => elifLoop n elifs els st1
    | .whileStmt cond blk => whileLoop n cond blk st
    | .skipStmt => some (.ex .skipSignal, st)
    | .stopStmt => some (.ex .stopSignal, st)
    | .funcDecl name params giveTy blk =>
      some (.norm,
        { st with functions := dictSet st.functions name ⟨name, params, giveTy, blk⟩ })
    | .procDecl name params blk =>
      some (.norm,
        { st with procedures := dictSet st.procedures name ⟨name, params, blk⟩ })
    | .funcCallStmt name args =>
      match callFunction n name args st with
      | none => none
      | some (.ok _, st1) => some (.norm, st1)
      | some (.ex ex, st1) => some (.ex ex, st1)
    | .procCall name args => callProcedure n name args st

/-- Model of `Interpreter.visit_NodeBlock`: statements in order; a give-signal stops
the block and is forwarded; an exception unwinds. -/
def execBlock : Nat → List Stmt → State → Option (ExecOut × State)
  | _, [], st => some (.norm, st)
  | 0, _ :: _, _ => none
  | n + 1, s :: rest, st =>
    match execStmt n s st with
    | none => none
    | some (.give v, st1) => some (.give v, st1)
    | some (.ex ex, st1) => some (.ex ex, st1)
    | some (.norm, st1) => execBlock n rest st1

end

/-- The empty starting state (`Interpreter.__init__`). -/
def initState : State := ⟨[], [], [], []⟩

/-- Model of `Interpreter.interpret` / `visit_NodeProgram`: push the program
activation record, run the top-level block, pop.  As with calls, the pop is
only reached on a normal return; an exception propagates past it. -/
def interpret (fuel : Nat) (program : List Stmt) : Option (ExecOut × State) :=
  let st1 : State :=
    { initState with callStack := [⟨"program", .PROGRAM, 1, []⟩] }
  match execBlock fuel program st1 with
  | none => none
  | some (.ex e, st2) => some (.ex e, st2)
  | some (out, st2) => some (out, popTop st2)

end Interp

namespace Sem

/-- Model of `ScopeType` from `src/_3_semantic_analysis/symbol_table.py` (it has no
`FOR_BLOCK` member). -/
inductive ScopeType where
  | PROGRAM
  | FUNCTION
  | PROCEDURE
  | IF_BLOCK
  | ELIF_BLOCK
  | ELSE_BLOCK
  | WHILE_BLOCK
deriving DecidableEq, Repr

/-- The symbol classes of `symbol_table.py`, at the granularity the
`isinstance` checks of the give/skip/stop validation observe (the
parameter lists, types and body blocks play no role in those checks and
are not carried). -/
inductive Symbol where
  | builtInTypeSym (identifier : String)
  | varSym (identifier : String)
  | constSym (identifier : String)
  | funcSym (identifier : String)
  | procSym (identifier : String)
deriving DecidableEq, Repr

/-- Model of `ScopedSymbolTable`: name, scope-kind tag, nesting level and the
insertion-ordered symbol mapping.  The enclosing-scope reference is
represented by the position in a chain list (head = current scope, last =
root; an empty tail is a `None` enclosing scope). -/
structure Scope where
  name : String
  type : ScopeType
  level : Nat
  symbols : List (String × Symbol)
deriving DecidableEq, Repr

/-- Model of `ScopedSymbolTable.lookup` with `current_scope_only=False`: search the
scope itself, then recurse into the enclosing chain. -/
def lookupChain : List Scope → String → Option Symbol
  | [], _ => none
  | s :: rest, k =>
    match Interp.dictGet s.symbols k with
    | some sym => some sym
    | none => lookupChain rest k

/-- The upward walk of `visit_NodeGiveStatement`: the first scope on the
chain whose type is `FUNCTION` or `PROCEDURE`, together with its enclosing
chain; `none` when the walk falls off the root. -/
def findSubroutineScope : List Scope → Option (Scope × List Scope)
  | [] => none
  | s :: rest =>
    if s.type = .FUNCTION ∨ s.type = .PROCEDURE then some (s, rest)
    else findSubroutineScope rest

/-- Model of `SemanticAnalyzer.visit_NodeGiveStatement` as a function of the current
scope chain and of whether the give carries an expression.  `ok` means the
give-specific checks pass (the analyzer then visits the carried expression,
which is the generic expression validation and not part of this decision).
The `SEM_WRONG_SYMBOL_TYPE` rejections are, in source order: give outside
any function/procedure scope, a subroutine scope with no enclosing scope
("Invalid scope structure"), and a scope whose name does not resolve to a
function or procedure symbol ("Give statement in invalid context"). -/
def visitGive (chain : List Scope) (hasExpr : Bool) : Except Interp.ErrorCode Unit :=
  match findSubroutineScope chain with
  | none => .error .SEM_WRONG_SYMBOL_TYPE
  | some (scope, enclosing) =>
    if enclosing.isEmpty then .error .SEM_WRONG_SYMBOL_TYPE
    else
      match lookupChain enclosing scope.name with
      | some (.funcSym _) =>
        if hasExpr then .ok () else .error .SEM_FUNCTION_EMPTY_GIVE
      | some (.procSym _) =>
        if hasExpr then .error .SEM_PROCEDURE_GIVING_VALUE else .ok ()
      | _ => .error .SEM_WRONG_SYMBOL_TYPE

/-- Model of `SemanticAnalyzer.visit_NodeSkipStatement`: walk the chain upward and
accept at the first `WHILE_BLOCK` scope; falling off the root rejects. -/
def visitSkip : List Scope → Except Interp.ErrorCode Unit
  | [] => .error .SEM_SKIP_STATEMENT_OUTSIDE_WHILE
  | s :: rest => if s.type = .WHILE_BLOCK then .ok () else visitSkip rest

/-- Model of `SemanticAnalyzer.visit_NodeStopStatement`: identical walk, its own
error code. -/
def visitStop : List Scope → Except Interp.ErrorCode Unit
  | [] => .error .SEM_STOP_STATEMENT_OUTSIDE_WHILE
  | s :: rest => if s.type = .WHILE_BLOCK then .ok () else visitStop rest

/-- The invariant `_enter_scope` maintains for every subroutine scope the
give-walk can find: `visit_NodeFunctionDeclaration` /
`visit_NodeProcedureDeclaration` define the symbol in the current scope and
then immediately enter the body scope under the same name, so a
`FUNCTION`/`PROCEDURE` scope always has a nonempty enclosing chain from
which its own name resolves to the matching symbol kind. -/
def WFChain (chain : List Scope) : Prop :=
  ∀ s enclosing, findSubroutineScope chain = some (s, enclosing) →
    enclosing ≠ [] ∧
    (s.type = .FUNCTION → ∃ i, lookupChain enclosing s.name = some (.funcSym i)) ∧
    (s.type = .PROCEDURE → ∃ i, lookupChain enclosing s.name = some (.procSym i))

end Sem

namespace Lex

/-- Model of `TokenType` from `src/lexical_analysis/tokens.py`. -/
inductive TokenType where
  | LEFT_BRACE
  | RIGHT_BRACE
  | LEFT_PARENTHESIS
  | RIGHT_PARENTHESIS
  | COMMA
  | COLON
  | ASSIGN
  | PLUS
  | MINUS
  | MULTIPLY
  | DIVIDE
  | MODULO
  | FLOOR_DIVIDE
  | POWER
  | LESS
  | GREATER
  | LESS_EQUAL
  | GREATER_EQUAL
  | EQUAL
  | NOT_EQUAL
  | ARROW
  | LET
  | KEEP
  | GIVE
  | FUNC
  | PROC
  | EXEC
  | AND
  | OR
  | NOT
  | IF
  | ELIF
  | ELSE
  | WHILE
  | SKIP
  | STOP
  | SHOW
  | INT_TYPE
  | FLOAT_TYPE
  | STRING_TYPE
  | BOOL_TYPE
  | INT_LITERAL
  | FLOAT_LITERAL
  | STRING_LITERAL
  | BOOL_LITERAL
  | IDENTIFIER
  | NEWLINE
  | EOF
deriving DecidableEq, Repr

/-- A token's literal payload (`ValueType` of `tokens.py`). -/
inductive TokValue where
  | i (z : Int)
  | f (q : ℚ)
  | s (text : String)
  | b (flag : Bool)
deriving DecidableEq, Repr

/-- Model of `Token`: kind, optional payload, 1-based line/column. -/
structure Token where
  type : TokenType
  value : Option TokValue
  line : Nat
  column : Nat
deriving DecidableEq, Repr

/-- The error codes `LexicalError` is raised with in
`src/1_lexical_analysis/lexical_analyzer.py`. -/
inductive LexCode where
  | INVALID_CHARACTER
  | INVALID_NUMBER_FORMAT
  | UNTERMINATED_STRING
deriving DecidableEq, Repr

/-- Model of `LexicalError`: code plus the absolute position, line and column it was
raised with (the formatted message string is not modelled). -/
structure LexErr where
  code : LexCode
  pos : Nat
  line : Nat
  column : Nat
deriving DecidableEq, Repr

/-- The scanner's mutable cursor: the not-yet-consumed suffix of the text
(`current_char` is its head, `None` when empty), the absolute position, and
the 1-based line/column. -/
structure LexState where
  rest : List Char
  pos : Nat
  line : Nat
  col : Nat
deriving DecidableEq, Repr

/-- Model of `LexicalAnalyzer.__init__` on a source string. -/
def initLexState (text : String) : LexState := ⟨text.toList, 0, 1, 1⟩

/-- Model of `LexicalAnalyzer._advance`: newline bookkeeping, then move one
character (advancing past the end only bumps the position, as in the
source). -/
def advance (st : LexState) : LexState :=
  match st.rest with
  | [] => { st with pos := st.pos + 1, col := st.col + 1 }
  | c :: cs =>
    if c = '\n' then ⟨cs, st.pos + 1, st.line + 1, 1⟩
    else ⟨cs, st.pos + 1, st.line, st.col + 1⟩

/-- Model of `LexicalAnalyzer._peek` with the default offset 1. -/
def peek (st : LexState) : Option Char := st.rest.get? 1

/-- The test `self._peek() and self._peek().isdigit()` used by both
`_tokenize_number`'s dot rule and the number branch of `next_token`. -/
def peekIsDigit (st : LexState) : Bool :=
  match peek st with
  | some d => d.isDigit
  | none => false

/-- Python `str.isspace`, restricted to ASCII. -/
def isPySpace (c : Char) : Bool :=
  c = ' ' || c = '\t' || c = '\n' || c = '\r' || c = '\x0b' || c = '\x0c'

/-- The loops below recurse structurally on the untouched input suffix; the
wrapper passes `st.rest` for it, and every `advance` keeps the two in
lockstep. -/
def skipWhitespaceGo : List Char → LexState → LexState
  | [], st => st
  | c :: cs, st =>
    if isPySpace c && c != '\n' then skipWhitespaceGo cs (advance st) else st

/-- Model of `LexicalAnalyzer._skip_whitespace`: intra-line whitespace only. -/
def skipWhitespace (st : LexState) : LexState := skipWhitespaceGo st.rest st

def skipCommentGo : List Char → LexState → LexState
  | [], st => st
  | c :: cs, st => if c != '\n' then skipCommentGo cs (advance st) else st

/-- Model of `LexicalAnalyzer._skip_comment`: consume the `#`, then everything up to
(not including) the newline. -/
def skipComment (st : LexState) : LexState :=
  let st1 := advance st
  skipCommentGo st1.rest st1

def skipNewlinesGo : List Char → LexState → LexState
  | [], st => st
  | c :: cs, st => if c = '\n' then skipNewlinesGo cs (advance st) else st

/-- Model of `LexicalAnalyzer._skip_consecutive_newlines`. -/
def skipNewlines (st : LexState) : LexState := skipNewlinesGo st.rest st

/-- The accumulation loop of `_tokenize_number`: collect digits and at most
one dot, where a dot is only taken when it is the first one and the next
character is a digit; otherwise the loop breaks at it. -/
def numberLoopGo : List Char → LexState → List Char → Bool →
    List Char × Bool × LexState
  | [], st, acc, hasDot => (acc, hasDot, st)
  | c :: cs, st, acc, hasDot =>
    if c.isDigit || c = '.' then
      if c = '.' then
        if hasDot || !(peekIsDigit st) then (acc, hasDot, st)
        else numberLoopGo cs (advance st) (acc ++ [c]) true
      else numberLoopGo cs (advance st) (acc ++ [c]) hasDot
    else (acc, hasDot, st)

/-- Python `int` on a digit string. -/
def intOfDigits (ds : List Char) : Int :=
  ds.foldl (fun acc c => acc * 10 + (c.toNat - '0'.toNat : Nat)) 0

/-- Python `float` on a lexeme of digits with a single dot (the only shape
`_tokenize_number` produces), idealized as an exact rational. -/
def ratOfLexeme (ds : List Char) : ℚ :=
  let intPart := ds.takeWhile (fun c => c ≠ '.')
  let fracPart := (ds.dropWhile (fun c => c ≠ '.')).drop 1
  (intOfDigits intPart : ℚ) + (intOfDigits fracPart : ℚ) / ((10 : ℚ) ^ fracPart.length)

/-- Model of `LexicalAnalyzer._tokenize_number`.  The start line/column are recorded
before the loop; an empty or lone-dot lexeme raises
`INVALID_NUMBER_FORMAT` at the post-loop cursor. -/
def tokenizeNumber (st : LexState) : Except LexErr (Token × LexState) :=
  let startLine := st.line
  let startCol := st.col
  match numberLoopGo st.rest st [] false with
  | (number, hasDot, st') =>
    if number = [] || number = ['.'] then
      .error ⟨.INVALID_NUMBER_FORMAT, st'.pos, st'.line, st'.col⟩
    else if hasDot then
      .ok (⟨.FLOAT_LITERAL, some (.f (ratOfLexeme number)), startLine, startCol⟩, st')
    else
      .ok (⟨.INT_LITERAL, some (.i (intOfDigits number)), startLine, startCol⟩, st')

/-- The escape table of `_tokenize_string`; an unknown escape passes the
escaped character through (dropping the backslash). -/
def escapeChar (c : Char) : Char :=
  if c = 'n' then '\n'
  else if c = 't' then '\t'
  else if c = 'r' then '\r'
  else c

/-- The character-collection loop of `_tokenize_string`: stops at the
closing quote or at the end of input, rejects a raw newline, and consumes
two characters for an escape (rejecting a backslash at the end of input). -/
def stringLoopGo : List Char → LexState → Char → List Char →
    Except LexErr (List Char × LexState)
  | [], st, _, acc => .ok (acc, st)
  | c :: cs, st, quote, acc =>
    if c = quote then .ok (acc, st)
    else if c = '\n' then .error ⟨.UNTERMINATED_STRING, st.pos, st.line, st.col⟩
    else if c = '\\' then
      let st1 := advance st
      match cs with
      | [] => .error ⟨.UNTERMINATED_STRING, st1.pos, st1.line, st1.col⟩
      | e :: cs' => stringLoopGo cs' (advance st1) quote (acc ++ [escapeChar e])
    else stringLoopGo cs (advance st) quote (acc ++ [c])

/-- Model of `LexicalAnalyzer._tokenize_string`: remember the opening position, read
the quote, run the loop, then demand the closing quote.  (Called on an
empty input the Python code would compare `None` with a `None` quote and
emit an empty string token; `next_token` never does that, and the branch is
reproduced as-is.) -/
def tokenizeString (st : LexState) : Except LexErr (Token × LexState) :=
  let startLine := st.line
  let startCol := st.col
  match st.rest with
  | [] => .ok (⟨.STRING_LITERAL, some (.s ""), startLine, startCol⟩, advance st)
  | q :: _ =>
    let st1 := advance st
    match stringLoopGo st1.rest st1 q [] with
    | .error e => .error e
    | .ok (acc, st') =>
      match st'.rest with
      | c :: _ =>
        if c = q then
          .ok (⟨.STRING_LITERAL, some (.s (String.mk acc)), startLine, startCol⟩,
            advance st')
        else .error ⟨.UNTERMINATED_STRING, st'.pos, st'.line, st'.col⟩
      | [] => .error ⟨.UNTERMINATED_STRING, st'.pos, st'.line, st'.col⟩

def identLoopGo : List Char → LexState → List Char → List Char × LexState
  | [], st, acc => (acc, st)
  | c :: cs, st, acc =>
    if c.isAlphanum || c = '_' then identLoopGo cs (advance st) (acc ++ [c])
    else (acc, st)

/-- Model of `RESERVED_KEYWORDS` of `src/lexical_analysis/tokens.py` (minus
`true`/`false`, which `_tokenize_identifier` intercepts before the table
lookup). -/
def reservedKeywords : List (String × TokenType) :=
  [ ("let", .LET), ("keep", .KEEP), ("give", .GIVE), ("func", .FUNC)
  , ("proc", .PROC), ("exec", .EXEC), ("int", .INT_TYPE), ("float", .FLOAT_TYPE)
  , ("string", .STRING_TYPE), ("bool", .BOOL_TYPE), ("and", .AND), ("or", .OR)
  , ("not", .NOT), ("if", .IF), ("elif", .ELIF), ("else", .ELSE)
  , ("while", .WHILE), ("skip", .SKIP), ("stop", .STOP), ("show", .SHOW)
  , ("true", .BOOL_LITERAL), ("false", .BOOL_LITERAL) ]

/-- Model of `LexicalAnalyzer._tokenize_identifier`: letters, digits and underscores;
`true`/`false` become boolean literals, reserved words their keyword kind,
anything else an identifier. -/
def tokenizeIdentifier (st : LexState) : Token × LexState :=
  let startLine := st.line
  let startCol := st.col
  match identLoopGo st.rest st [] with
  | (acc, st') =>
    let ident := String.mk acc
    if ident = "true" then (⟨.BOOL_LITERAL, some (.b true), startLine, startCol⟩, st')
    else if ident = "false" then
      (⟨.BOOL_LITERAL, some (.b false), startLine, startCol⟩, st')
    else
      match Interp.dictGet reservedKeywords ident with
      | some tt => (⟨tt, some (.s ident), startLine, startCol⟩, st')
      | none => (⟨.IDENTIFIER, some (.s ident), startLine, startCol⟩, st')

/-- Model of `MULTI_CHAR_OPERATORS`, in the order `_tokenize_multi_character_operator`
tries them (all the same length, so the stable sort keeps table order). -/
def multiCharOperators : List (String × TokenType) :=
  [ ("->", .ARROW), ("**", .POWER), ("//", .FLOOR_DIVIDE), ("==", .EQUAL)
  , ("!=", .NOT_EQUAL), ("<=", .LESS_EQUAL), (">=", .GREATER_EQUAL) ]

/-- Model of `LexicalAnalyzer._matches_operator`: the operator's characters against
the cursor and its peeks. -/
def matchesOperator : List Char → List Char → Bool
  | [], _ => true
  | _ :: _, [] => false
  | o :: os, c :: cs => o = c && matchesOperator os cs

def advanceN : Nat → LexState → LexState
  | 0, st => st
  | n + 1, st => advanceN n (advance st)

def tryOperators : List (String × TokenType) → LexState → Option (Token × LexState)
  | [], _ => none
  | (op, tt) :: rest, st =>
    if matchesOperator op.toList st.rest then
      some (⟨tt, some (.s op), st.line, st.col⟩, advanceN op.length st)
    else tryOperators rest st

/-- Model of `LexicalAnalyzer._tokenize_multi_character_operator`. -/
def tokenizeMultiCharOperator (st : LexState) : Option (Token × LexState) :=
  tryOperators multiCharOperators st

/-- Model of `SINGLE_CHARACTER_TOKEN_TYPES` (note: no `.` and no `!`). -/
def singleCharTokenTypes : List (Char × TokenType) :=
  [ ('{', .LEFT_BRACE), ('}', .RIGHT_BRACE), ('(', .LEFT_PARENTHESIS)
  , (')', .RIGHT_PARENTHESIS), (',', .COMMA), (':', .COLON), ('=', .ASSIGN)
  , ('+', .PLUS), ('-', .MINUS), ('*', .MULTIPLY), ('/', .DIVIDE)
  , ('%', .MODULO), ('<', .LESS), ('>', .GREATER) ]

def singleCharLookup (c : Char) : Option TokenType :=
  match singleCharTokenTypes.find? (fun p => p.1 == c) with
  | some p => some p.2
  | none => none

/-- Model of `LexicalAnalyzer.next_token`, fuelled for the comment-skip `continue`
(each such restart has consumed at least the `#`, so any fuel above the
remaining length suffices; `none` is unreachable then — see
`nextToken_of_gt_length`).  Branch order follows the source: whitespace
skip, comment restart, end of input, newline (collapsing the following
run), number start (a digit, or a dot whose peek is a digit), string quote,
identifier start, greedy two-character operator, single-character token,
invalid character. -/
def nextTokenGo : Nat → LexState → Option (Except LexErr (Token × LexState))
  | 0, _ => none
  | n + 1, st =>
    let st1 := skipWhitespace st
    match st1.rest with
    | [] => some (.ok (⟨.EOF, none, st1.line, st1.col⟩, st1))
    | c :: _ =>
      if c = '#' then nextTokenGo n (skipComment st1)
      else if c = '\n' then
        some (.ok (⟨.NEWLINE, some (.s "\n"), st1.line, st1.col⟩,
          skipNewlines (advance st1)))
      else if c.isDigit || (c = '.' && peekIsDigit st1) then
        some (tokenizeNumber st1)
      else if c = '\'' || c = '"' then some (tokenizeString st1)
      else if c.isAlpha || c = '_' then some (.ok (tokenizeIdentifier st1))
      else
        match tokenizeMultiCharOperator st1 with
        | some r => some (.ok r)
        | none =>
          match singleCharLookup c with
          | some tt =>
            some (.ok (⟨tt, some (.s (String.mk [c])), st1.line, st1.col⟩,
              advance st1))
          | none => some (.error ⟨.INVALID_CHARACTER, st1.pos, st1.line, st1.col⟩)

/-- Model of `next_token` with always-sufficient fuel. -/
def nextToken (st : LexState) : Option (Except LexErr (Token × LexState)) :=
  nextTokenGo (st.rest.length + 1) st

/-- Model of `LexicalAnalyzer.tokenize`, fuelled for its `while True` loop: collect
tokens until the EOF token is appended.  Any fuel above the remaining
length suffices because every non-EOF token consumes at least one
character (`nextToken_progress`). -/
def tokenizeGo : Nat → LexState → Option (Except LexErr (List Token))
  | 0, _ => none
  | n + 1, st =>
    match nextToken st with
    | none => none
    | some (.error e) => some (.error e)
    | some (.ok (t, st')) =>
      if t.type = .EOF then some (.ok [t])
      else
        match tokenizeGo n st' with
        | none => none
        | some (.error e) => some (.error e)
        | some (.ok ts) => some (.ok (t :: ts))

/-- The scanner's public entry point on a source string. -/
def tokenize (text : String) : Option (Except LexErr (List Token)) :=
  tokenizeGo (text.length + 1) (initLexState text)

end Lex

namespace Parse

/-- Model of `SyntacticError` as raised by `SyntacticAnalyzer._consume`,
`_statement` and `_primary_expression`: an `UNEXPECTED_TOKEN` carrying the
offending token (the expected-vs-found message string is not modelled).
The only other parser error, `WRONG_NUMBER_OF_EXPRESSIONS`, arises in the
declaration productions, which are outside this slice. -/
inductive SynErr where
  | unexpectedToken (found : Lex.Token)
deriving DecidableEq, Repr

/-- The parser's state: the one-token lookahead `_current_token` plus the
tokens still to come.  An exhausted list behaves like the scanner at end of
input: every further `next_token` is an EOF token. -/
structure PState where
  cur : Lex.Token
  rest : List Lex.Token
deriving DecidableEq, Repr

/-- Model of `self._current_token = self._lexical_analyzer.next_token()`. -/
def padvance (st : PState) : PState :=
  match st.rest with
  | [] => ⟨⟨.EOF, none, st.cur.line, st.cur.column⟩, []⟩
  | t :: ts => ⟨t, ts⟩

/-- Model of `SyntacticAnalyzer._consume`: check the kind, return the consumed token
and advance, or fail with the unexpected token. -/
def consume (expected : Lex.TokenType) (st : PState) :
    Except SynErr (Lex.Token × PState) :=
  if st.cur.type = expected then .ok (st.cur, padvance st)
  else .error (.unexpectedToken st.cur)

/-- Expression nodes of `syntactic_analysis/ast.py`, carrying the token
payloads the parser stores in them (`NodeIdentifier(token.value)`,
operator nodes holding `operator.value`, literal nodes holding the literal
token's value). -/
inductive PExpr where
  | integerLiteral (value : Option Lex.TokValue)
  | floatLiteral (value : Option Lex.TokValue)
  | stringLiteral (value : Option Lex.TokValue)
  | booleanLiteral (value : Option Lex.TokValue)
  | identifier (value : Option Lex.TokValue)
  | functionCall (name : Option Lex.TokValue) (args : List PExpr)
  | binaryArithmetic (left : PExpr) (operator : Option Lex.TokValue) (right : PExpr)
  | unaryArithmetic (operator : Option Lex.TokValue) (operand : PExpr)
  | comparison (left : PExpr) (operator : Option Lex.TokValue) (right : PExpr)
  | arithAsBool (operand : PExpr)
  | binaryBool (left : PExpr) (operator : Option Lex.TokValue) (right : PExpr)
  | unaryBool (operator : Option Lex.TokValue) (operand : PExpr)

/-- The statement node this slice of the parser produces
(`NodeAssignmentStatement(identifier, expression)`). -/
inductive PStmt where
  | assignment (target : Option Lex.TokValue) (expression : PExpr)

/-- The comparison-operator set of `_comparison_expression`. -/
def isComparisonOperator (t : Lex.TokenType) : Bool :=
  t = .EQUAL || t = .NOT_EQUAL || t = .LESS || t = .GREATER ||
    t = .LESS_EQUAL || t = .GREATER_EQUAL

mutual

/-- Model of `SyntacticAnalyzer._expression` → `_boolean_expression`; the rest of
the precedence-climbing cascade follows the source production by
production.  All functions are fuelled (`none` = fuel ran out); the
while-loops for left-associative operators become the `…Loop` helpers. -/
def expression : Nat → PState → Option (Except SynErr (PExpr × PState))
  | 0, _ => none
  | n + 1, st => booleanExpression n st

def booleanExpression : Nat → PState → Option (Except SynErr (PExpr × PState))
  | 0, _ => none
  | n + 1, st => logicalOrExpression n st

def logicalOrExpression : Nat → PState → Option (Except SynErr (PExpr × PState))
  | 0, _ => none
  | n + 1, st =>
    match logicalAndExpression n st with
    | none => none
    | some (.error e) => some (.error e)
    | some (.ok (left, st1)) => orLoop n left st1

def orLoop : Nat → PExpr → PState → Option (Except SynErr (PExpr × PState))
  | 0, _, _ => none
  | n + 1, left, st =>
    if st.cur.type = .OR then
      match logicalAndExpression n (padvance st) with
      | none => none
      | some (.error e) => some (.error e)
      | some (.ok (right, st2)) =>
        orLoop n (.binaryBool left st.cur.value right) st2
    else some (.ok (left, st))

def logicalAndExpression : Nat → PState → Option (Except SynErr (PExpr × PState))
  | 0, _ => none
  | n + 1, st =>
    match logicalNotExpression n st with
    | none => none
    | some (.error e) => some (.error e)
    | some (.ok (left, st1)) => andLoop n left st1

def andLoop : Nat → PExpr → PState → Option (Except SynErr (PExpr × PState))
  | 0, _, _ => none
  | n + 1, left, st =>
    if st.cur.type = .AND then
      match logicalNotExpression n (padvance st) with
      | none => none
      | some (.error e) => some (.error e)
      | some (.ok (right, st2)) =>
        andLoop n (.binaryBool left st.cur.value right) st2
    else some (.ok (left, st))

def logicalNotExpression : Nat → PState → Option (Except SynErr (PExpr × PState))
  | 0, _ => none
  | n + 1, st =>
    if st.cur.type = .NOT then
      match primaryBooleanExpression n (padvance st) with
      | none => none
      | some (.error e) => some (.error e)
      | some (.ok (operand, st1)) => some (.ok (.unaryBool st.cur.value operand, st1))
    else primaryBooleanExpression n st

def primaryBooleanExpression : Nat → PState → Option (Except SynErr (PExpr × PState))
  | 0, _ => none
  | n + 1, st =>
    if st.cur.type = .BOOL_LITERAL then
      some (.ok (.booleanLiteral st.cur.value, padvance st))
    else if st.cur.type = .LEFT_PARENTHESIS then
      match booleanExpression n (padvance st) with
      | none => none
      | some (.error e) => some (.error e)
      | some (.ok (inner, st1)) =>
        match consume .RIGHT_PARENTHESIS st1 with
        | .error e => some (.error e)
        | .ok (_, st2) => some (.ok (inner, st2))
    else comparisonExpression n st

def comparisonExpression : Nat → PState → Option (Except SynErr (PExpr × PState))
  | 0, _ => none
  | n + 1, st =>
    match arithmeticExpression n st with
    | none => none
    | some (.error e) => some (.error e)
    | some (.ok (left, st1)) =>
      if isComparisonOperator st1.cur.type then
        match arithmeticExpression n (padvance st1) with
        | none => none
        | some (.error e) => some (.error e)
        | some (.ok (right, st2)) =>
          some (.ok (.comparison left st1.cur.value right, st2))
      else some (.ok (.arithAsBool left, st1))

def arithmeticExpression : Nat → PState → Option (Except SynErr (PExpr × PState))
  | 0, _ => none
  | n + 1, st => additiveExpression n st

def additiveExpression : Nat → PState → Option (Except SynErr (PExpr × PState))
  | 0, _ => none
  | n + 1, st =>
    match multiplicativeExpression n st with
    | none => none
    | some (.error e) => some (.error e)
    | some (.ok (left, st1)) => additiveLoop n left st1

def additiveLoop : Nat → PExpr → PState → Option (Except SynErr (PExpr × PState))
  | 0, _, _ => none
  | n + 1, left, st =>
    if st.cur.type = .PLUS || st.cur.type = .MINUS then
      match multiplicativeExpression n (padvance st) with
      | none => none
      | some (.error e) => some (.error e)
      | some (.ok (right, st2)) =>
        additiveLoop n (.binaryArithmetic left st.cur.value right) st2
    else some (.ok (left, st))

def multiplicativeExpression : Nat → PState → Option (Except SynErr (PExpr × PState))
  | 0, _ => none
  | n + 1, st =>
    match powerExpression n st with
    | none => none
    | some (.error e) => some (.error e)
    | some (.ok (left, st1)) => multiplicativeLoop n left st1

def multiplicativeLoop : Nat → PExpr → PState → Option (Except SynErr (PExpr × PState))
  | 0, _, _ => none
  | n + 1, left, st =>
    if st.cur.type = .MULTIPLY || st.cur.type = .DIVIDE ||
        st.cur.type = .FLOOR_DIVIDE || st.cur.type = .MODULO then
      match powerExpression n (padvance st) with
      | none => none
      | some (.error e) => some (.error e)
      | some (.ok (right, st2)) =>
        multiplicativeLoop n (.binaryArithmetic left st.cur.value right) st2
    else some (.ok (left, st))

def powerExpression : Nat → PState → Option (Except SynErr (PExpr × PState))
  | 0, _ => none
  | n + 1, st =>
    match unaryExpression n st with
    | none => none
    | some (.error e) => some (.error e)
    | some (.ok (left, st1)) =>
      if st1.cur.type = .POWER then
        match powerExpression n (padvance st1) with
        | none => none
        | some (.error e) => some (.error e)
        | some (.ok (right, st2)) =>
          some (.ok (.binaryArithmetic left st1.cur.value right, st2))
      else some (.ok (left, st1))

def unaryExpression : Nat → PState → Option (Except SynErr (PExpr × PState))
  | 0, _ => none
  | n + 1, st =>
    if st.cur.type = .PLUS || st.cur.type = .MINUS then
      match unaryExpression n (padvance st) with
      | none => none
      | some (.error e) => some (.error e)
      | some (.ok (operand, st1)) =>
        some (.ok (.unaryArithmetic st.cur.value operand, st1))
    else primaryExpression n st

/-- Model of `SyntacticAnalyzer._primary_expression`.  In the `IDENTIFIER` case the
source consumes speculatively, and when `(` follows it restores the saved
scanner cursor and re-parses from the saved token as a function call; in
the pure model the restore is simply using the saved state. -/
def primaryExpression : Nat → PState → Option (Except SynErr (PExpr × PState))
  | 0, _ => none
  | n + 1, st =>
    if st.cur.type = .INT_LITERAL then
      some (.ok (.integerLiteral st.cur.value, padvance st))
    else if st.cur.type = .FLOAT_LITERAL then
      some (.ok (.floatLiteral st.cur.value, padvance st))
    else if st.cur.type = .STRING_LITERAL then
      some (.ok (.stringLiteral st.cur.value, padvance st))
    else if st.cur.type = .IDENTIFIER then
      let st1 := padvance st
      if st1.cur.type = .LEFT_PARENTHESIS then functionCallExpr n st
      else some (.ok (.identifier st.cur.value, st1))
    else if st.cur.type = .LEFT_PARENTHESIS then
      match arithmeticExpression n (padvance st) with
      | none => none
      | some (.error e) => some (.error e)
      | some (.ok (inner, st1)) =>
        match consume .RIGHT_PARENTHESIS st1 with
        | .error e => some (.error e)
        | .ok (_, st2) => some (.ok (inner, st2))
    else some (.error (.unexpectedToken st.cur))

/-- Model of `SyntacticAnalyzer._function_call`: identifier, `(`, optional argument
list, `)`. -/
def functionCallExpr : Nat → PState → Option (Except SynErr (PExpr × PState))
  | 0, _ => none
  | n + 1, st =>
    match consume .IDENTIFIER st with
    | .error e => some (.error e)
    | .ok (nameTok, st1) =>
      match consume .LEFT_PARENTHESIS st1 with
      | .error e => some (.error e)
      | .ok (_, st2) =>
        if st2.cur.type = .RIGHT_PARENTHESIS then
          some (.ok (.functionCall nameTok.value [], padvance st2))
        else
          match argumentList n st2 with
          | none => none
          | some (.error e) => some (.error e)
          | some (.ok (args, st3)) =>
            match consume .RIGHT_PARENTHESIS st3 with
            | .error e => some (.error e)
            | .ok (_, st4) => some (.ok (.functionCall nameTok.value args, st4))

def argumentList : Nat → PState → Option (Except SynErr (List PExpr × PState))
  | 0, _ => none
  | n + 1, st =>
    match expression n st with
    | none => none
    | some (.error e) => some (.error e)
    | some (.ok (first, st1)) => argumentLoop n [first] st1

def argumentLoop : Nat → List PExpr → PState → Option (Except SynErr (List PExpr × PState))
  | 0, _, _ => none
  | n + 1, acc, st =>
    if st.cur.type = .COMMA then
      match expression n (padvance st) with
      | none => none
      | some (.error e) => some (.error e)
      | some (.ok (next, st1)) => argumentLoop n (acc ++ [next]) st1
    else some (.ok (acc, st))

end

/-- Model of `SyntacticAnalyzer._assignment_statement`: identifier, `=`,
expression — with no lookahead before committing to the `=`. -/
def assignmentStatement (fuel : Nat) (st : PState) :
    Option (Except SynErr (PStmt × PState)) :=
  match fuel with
  | 0 => none
  | n + 1 =>
    match consume .IDENTIFIER st with
    | .error e => some (.error e)
    | .ok (nameTok, st1) =>
      match consume .ASSIGN st1 with
      | .error e => some (.error e)
      | .ok (_, st2) =>
        match expression n st2 with
        | none => none
        | some (.error e) => some (.error e)
        | some (.ok (e, st3)) => some (.ok (.assignment nameTok.value e, st3))

/-- The `TokenType.IDENTIFIER` arm of `SyntacticAnalyzer._statement`: it
routes directly to `_assignment_statement()`.  No lookahead is consulted
in the dispatch (the `_peek_next_token` helper defined at the top of the
file is called nowhere), and there is no arm producing a bare
function-call statement — procedure calls enter through the `EXEC`
keyword arm instead. -/
def statementOnIdentifier (fuel : Nat) (st : PState) :
    Option (Except SynErr (PStmt × PState)) :=
  assignmentStatement fuel st

end Parse

/-! Concrete programs, states and token streams used by the theorems. -/

namespace Interp

/-- The program `{ let number y = 5  func f() -> number { give y }  show f() }`:
the function body reads a caller local that is not a parameter. -/
def calleeReadsCallerLocal (y : Int) : List Stmt :=
  [ .varDecl .number ["y"] [.intLit y]
  , .funcDecl "f" [] .number [.give (some (.ident "y"))]
  , .showStmt (.funcCall "f" []) ]

/-- The program `while true { proc p() { stop }  exec p() }`: the stop-signal raised in
the called procedure is caught by the enclosing while loop. -/
def stopInCalledProcedure : Stmt :=
  .whileStmt (.boolLit true) [ .procDecl "p" [] [.stopStmt], .procCall "p" [] ]

/-- A state holding only the program activation record, as after
`visit_NodeProgram`'s push. -/
def programOnlyState : State :=
  { initState with callStack := [⟨"program", .PROGRAM, 1, []⟩] }

/-- A state whose function table binds `f` to a nullary function that gives
`1` (`func f() -> number { give 1 }`). -/
def givingFunctionState : State :=
  { programOnlyState with
    functions := [("f", ⟨"f", [], .number, [.give (some (.intLit 1))]⟩)] }

end Interp

namespace Sem

/-- The chain current inside the body of `func f`, declared at top level:
function scope over the global scope that holds `f`'s symbol. -/
def functionBodyChain : List Scope :=
  [ ⟨"f", .FUNCTION, 2, []⟩
  , ⟨"global", .PROGRAM, 1, [("f", .funcSym "f")]⟩ ]

/-- The chain current inside an `if` block that is outside any loop. -/
def ifOutsideLoopChain : List Scope :=
  [ ⟨"if_statement_1", .IF_BLOCK, 2, []⟩, ⟨"global", .PROGRAM, 1, []⟩ ]

end Sem

namespace Parse

/-- The token stream of the statement `f()` (identifier-led bare call). -/
def bareCallState : PState :=
  ⟨⟨.IDENTIFIER, some (.s "f"), 1, 1⟩,
   [ ⟨.LEFT_PARENTHESIS, some (.s "("), 1, 2⟩
   , ⟨.RIGHT_PARENTHESIS, some (.s ")"), 1, 3⟩
   , ⟨.NEWLINE, some (.s "\n"), 1, 4⟩ ]⟩

/-- The token stream of the statement `x = 1`. -/
def assignState : PState :=
  ⟨⟨.IDENTIFIER, some (.s "x"), 1, 1⟩,
   [ ⟨.ASSIGN, some (.s "="), 1, 3⟩
   , ⟨.INT_LITERAL, some (.i 1), 1, 5⟩
   , ⟨.NEWLINE, some (.s "\n"), 1, 6⟩ ]⟩

end Parse

/-- The value the last binding of `k` in a parameter/argument pair list
carries, if any — the reference description of what repeated `dict`
assignment leaves behind. -/
def lastBinding {α : Type} : List (String × α) → String → Option α
  | [], _ => none
  | p :: ps, k =>
    match lastBinding ps k with
    | some v => some v
    | none => if p.1 == k then some p.2 else none

/-- Returns `o` when it holds a value, the fallback otherwise (used to state lookup
results with an explicit fallback). -/
def withFallback {α : Type} (o fallback : Option α) : Option α :=
  match o with
  | some v => some v
  | none => fallback

/-! ## Claim theorems -/

theorem dictGet_cons {α : Type} (k1 : String) (v1 : α)
    (rest : List (String × α)) (k : String) :
    Interp.dictGet ((k1, v1) :: rest) k =
      if k1 = k then some v1 else Interp.dictGet rest k := by
  by_cases h : k1 = k
  · simp [Interp.dictGet, List.find?, h]
  · have hb : (k1 == k) = false := by simp [h]
    simp [Interp.dictGet, List.find?, hb, h]

theorem dictGet_dictSet {α : Type} (m : List (String × α)) (k k' : String) (v : α) :
    Interp.dictGet (Interp.dictSet m k v) k' =
      if k' = k then some v else Interp.dictGet m k' := by
  induction m with
  | nil =>
    by_cases h : k' = k
    · subst h
      simp [Interp.dictSet, dictGet_cons]
    · have h' : ¬ k = k' := fun hc => h hc.symm
      have hb : (k == k') = false := by simp [h']
      simp [Interp.dictSet, dictGet_cons, h, h', hb, Interp.dictGet, List.find?]
  | cons p rest ih =>
    obtain ⟨k1, v1⟩ := p
    by_cases h1 : k1 = k
    · subst h1
      by_cases h2 : k' = k1
      · subst h2
        simp [Interp.dictSet, dictGet_cons]
      · have h2' : ¬ k1 = k' := fun hc => h2 hc.symm
        simp [Interp.dictSet, dictGet_cons, h2, h2']
    · have hb : (k1 == k) = false := by simp [h1]
      by_cases h2 : k1 = k'
      · subst h2
        simp [Interp.dictSet, hb, dictGet_cons, h1]
      · by_cases h3 : k' = k
        · subst h3
          simp [Interp.dictSet, hb, dictGet_cons, h2, ih]
        · simp [Interp.dictSet, hb, dictGet_cons, h2, h3, ih]

theorem dictGet_foldl_dictSet {α : Type} (ps : List (String × α))
    (m : List (String × α)) (k : String) :
    Interp.dictGet (ps.foldl (fun acc p => Interp.dictSet acc p.1 p.2) m) k =
      withFallback (lastBinding ps k) (Interp.dictGet m k) := by
  induction ps generalizing m with
  | nil => simp [lastBinding, withFallback]
  | cons p ps ih =>
    simp only [List.foldl_cons, ih, lastBinding]
    cases h : lastBinding ps k with
    | some v => simp [withFallback]
    | none =>
      by_cases hk : p.1 = k
      · simp [withFallback, dictGet_dictSet, hk]
      · have hb : (p.1 == k) = false := by simp [hk]
        simp [withFallback, dictGet_dictSet, hb,
          if_neg (fun hc : k = p.1 => hk hc.symm)]

/-- Claim C1, counterexample.  In
`{ let number y = v  func f() -> number { give y }  show f() }` the
function body reads `y`, which is neither a parameter of `f` nor declared
or assigned inside `f`: the claim predicts the `identifier not defined`
runtime error and insensitivity to the caller's locals, but the run
completes normally and prints the caller's `y` — two runs differing only
in that caller local print different values. -/
theorem callee_sees_caller_locals :
    ((Interp.interpret 20 (Interp.calleeReadsCallerLocal 5)).map
        (fun res => (res.1, res.2.output)) = some (.norm, ["5"]))
    ∧ ((Interp.interpret 20 (Interp.calleeReadsCallerLocal 7)).map
        (fun res => (res.1, res.2.output)) = some (.norm, ["7"])) :=
  ⟨rfl, rfl⟩

/-- Claim C1, amended.  The callee's activation record is initialized with a
copy of all of the caller's members and the parameter bindings are then
written over that copy, so a callee identifier resolves to the latest
parameter binding when it is a parameter and to the caller's binding
otherwise; the `identifier not defined` runtime error occurs exactly when
the name is absent from the record on top of the stack (for a fresh callee
frame: neither a parameter nor present in the caller's frame). -/
theorem callee_record_copies_caller_frame :
    (∀ (caller : Interp.ActivationRecord) (calleeName : String)
        (ty : Interp.ARType) (params : List String) (args : List Interp.Value)
        (k : String),
      Interp.dictGet
          (Interp.buildCalleeRecord caller calleeName ty params args).members k =
        withFallback (lastBinding (params.zip args) k)
          (Interp.dictGet caller.members k))
    ∧ (∀ (st : Interp.State) (n : Nat) (r : Interp.ActivationRecord)
        (tail : List Interp.ActivationRecord) (k : String),
        st.callStack = r :: tail → Interp.dictGet r.members k = none →
        Interp.evalExpr (n + 1) (.ident k) st
          = some (.ex (.rte .UNDECLARED_IDENTIFIER), st)) := by
  constructor
  · intro caller calleeName ty params args k
    unfold Interp.buildCalleeRecord
    exact dictGet_foldl_dictSet (params.zip args) caller.members k
  · intro st n r tail k hstack hget
    simp [Interp.evalExpr, hstack, hget]

/-- Witness for `callee_record_copies_caller_frame`: a copied caller local
`y` is visible in a callee frame with parameter `x`, and an identifier
missing from the top frame fails with the undeclared-identifier error. -/
theorem callee_record_copies_caller_frame_witness :
    Interp.dictGet
        (Interp.buildCalleeRecord ⟨"program", .PROGRAM, 1, [("y", .int 5)]⟩
          "f" .FUNCTION ["x"] [.int 7]).members "y" = some (.int 5)
    ∧ Interp.evalExpr 1 (.ident "zz") Interp.programOnlyState
        = some (.ex (.rte .UNDECLARED_IDENTIFIER), Interp.programOnlyState) := by
  constructor
  · have h := callee_record_copies_caller_frame.1
      ⟨"program", .PROGRAM, 1, [("y", .int 5)]⟩ "f" .FUNCTION ["x"] [.int 7] "y"
    simpa [lastBinding] using h
  · exact callee_record_copies_caller_frame.2 Interp.programOnlyState 0
      ⟨"program", .PROGRAM, 1, []⟩ [] "zz" rfl rfl

/-- Claim C2.  The failing input `{ while true { proc p() { stop } exec p() } }`:
the while statement terminates normally (the stop-signal raised inside the
called procedure's body is caught by the loop), yet the activation record
pushed for the `exec p()` call is still on the stack afterwards — the
`pop()` after the body in `visit_NodeProcedureCall` is not in a `finally`
block, so the propagating `StopException` skips it and the push/pop balance
the specification demands is broken (depth 1 before, depth 2 after). -/
theorem stop_in_called_procedure_leaks_frame :
    (Interp.execStmt 20 Interp.stopInCalledProcedure Interp.programOnlyState).map
        (fun res => (res.1, res.2.callStack.map (fun a => a.name)))
      = some (.norm, ["p", "program"]) := rfl

/-- Claim C3.  The call boundary's give protocol, for a nullary call whose
body execution is given: at a function call a give-signal carrying a value
becomes the call's result, a bare give is the fatal empty-give runtime
error, and falling off the end is the fatal not-giving runtime error; at a
procedure call a give-signal carrying a value is the fatal
procedure-giving-value runtime error, while a bare give or falling off the
end completes normally with no result.  In every one of these cases the
pushed record has been popped (the result state is `popTop` of the body's
final state). -/
theorem call_boundary_give_protocol :
    ∀ (n : Nat) (name : String) (st : Interp.State)
      (caller : Interp.ActivationRecord) (tail : List Interp.ActivationRecord)
      (out : Interp.ExecOut) (st' : Interp.State)
      (fsym : Interp.FunctionSymbol) (psym : Interp.ProcedureSymbol),
      st.callStack = caller :: tail →
      ((Interp.dictGet st.functions name = some fsym →
        Interp.execBlock n fsym.block
          { st with callStack :=
              (Interp.buildCalleeRecord caller fsym.identifier .FUNCTION (fsym.parameters.map Prod.fst) []) :: st.callStack }
          = some (out, st') →
        ((∀ v, out = .give (some v) →
            Interp.callFunction (n + 1) name [] st = some (.ok v, Interp.popTop st'))
          ∧ (out = .give none →
            Interp.callFunction (n + 1) name [] st
              = some (.ex (.rte .FUNCTION_EMPTY_GIVE), Interp.popTop st'))
          ∧ (out = .norm →
            Interp.callFunction (n + 1) name [] st
              = some (.ex (.rte .FUNCTION_NOT_GIVING), Interp.popTop st'))))
        ∧ (Interp.dictGet st.procedures name = some psym →
          Interp.execBlock n psym.block
            { st with callStack :=
                (Interp.buildCalleeRecord caller psym.identifier .PROCEDURE (psym.parameters.map Prod.fst) []) :: st.callStack }
            = some (out, st') →
          ((∀ v, out = .give (some v) →
              Interp.callProcedure (n + 1) name [] st
                = some (.ex (.rte .PROCEDURE_GIVING_VALUE), Interp.popTop st'))
            ∧ (out = .give none →
              Interp.callProcedure (n + 1) name [] st
                = some (.norm, Interp.popTop st'))
            ∧ (out = .norm →
              Interp.callProcedure (n + 1) name [] st
                = some (.norm, Interp.popTop st'))))) := by
  intro n name st caller tail out st' fsym psym hstack
  constructor
  · intro hfn hexec
    refine ⟨?_, ?_, ?_⟩
    · intro v hout
      subst hout
      simp [Interp.callFunction, Interp.evalArgs, hfn, hstack] at hexec ⊢
      simp [hexec]
    · intro hout
      subst hout
      simp [Interp.callFunction, Interp.evalArgs, hfn, hstack] at hexec ⊢
      simp [hexec]
    · intro hout
      subst hout
      simp [Interp.callFunction, Interp.evalArgs, hfn, hstack] at hexec ⊢
      simp [hexec]
  · intro hpr hexec
    refine ⟨?_, ?_, ?_⟩
    · intro v hout
      subst hout
      simp [Interp.callProcedure, Interp.evalArgs, hpr, hstack] at hexec ⊢
      simp [hexec]
    · intro hout
      subst hout
      simp [Interp.callProcedure, Interp.evalArgs, hpr, hstack] at hexec ⊢
      simp [hexec]
    · intro hout
      subst hout
      simp [Interp.callProcedure, Interp.evalArgs, hpr, hstack] at hexec ⊢
      simp [hexec]

theorem findSubroutineScope_type (chain : List Sem.Scope) (s : Sem.Scope)
    (rest : List Sem.Scope)
    (h : Sem.findSubroutineScope chain = some (s, rest)) :
    s.type = .FUNCTION ∨ s.type = .PROCEDURE := by
  induction chain with
  | nil => simp [Sem.findSubroutineScope] at h
  | cons c cs ih =>
    by_cases hc : c.type = Sem.ScopeType.FUNCTION ∨ c.type = Sem.ScopeType.PROCEDURE
    · simp [Sem.findSubroutineScope, hc] at h
      obtain ⟨rfl, rfl⟩ := h
      exact hc
    · simp [Sem.findSubroutineScope, hc] at h
      exact ih h

/-- Claim C4.  The give-legality decision of semantic analysis, for any scope
chain satisfying the analyzer's scope-construction invariant: a give with
no function/procedure scope on the chain is rejected; when the upward walk
finds a function scope the give is accepted iff it carries an expression
(rejected as `SEM_FUNCTION_EMPTY_GIVE` otherwise); when it finds a
procedure scope the give is accepted iff it carries none (rejected as
`SEM_PROCEDURE_GIVING_VALUE` otherwise); and the found scope is always a
function or procedure scope, so these cases are exhaustive. -/
theorem give_legality_scope_walk :
    ∀ (chain : List Sem.Scope) (hasExpr : Bool), Sem.WFChain chain →
      (Sem.findSubroutineScope chain = none →
        Sem.visitGive chain hasExpr = .error .SEM_WRONG_SYMBOL_TYPE)
      ∧ (∀ s rest, Sem.findSubroutineScope chain = some (s, rest) →
          (s.type = .FUNCTION →
            Sem.visitGive chain hasExpr =
              if hasExpr then .ok () else .error .SEM_FUNCTION_EMPTY_GIVE)
          ∧ (s.type = .PROCEDURE →
            Sem.visitGive chain hasExpr =
              if hasExpr then .error .SEM_PROCEDURE_GIVING_VALUE else .ok ()))
      ∧ (∀ s rest, Sem.findSubroutineScope chain = some (s, rest) →
          s.type = .FUNCTION ∨ s.type = .PROCEDURE) := by
  intro chain hasExpr hwf
  refine ⟨?_, ?_, ?_⟩
  · intro hnone
    simp [Sem.visitGive, hnone]
  · intro s rest hfind
    obtain ⟨hne, hfun, hproc⟩ := hwf s rest hfind
    have hne' : rest.isEmpty = false := by
      cases rest with
      | nil => exact absurd rfl hne
      | cons a l => rfl
    constructor
    · intro hty
      obtain ⟨i, hlook⟩ := hfun hty
      cases hasExpr <;> simp [Sem.visitGive, hfind, hne', hlook]
    · intro hty
      obtain ⟨i, hlook⟩ := hproc hty
      cases hasExpr <;> simp [Sem.visitGive, hfind, hne', hlook]
  · exact fun s rest h => findSubroutineScope_type chain s rest h

/-- Witness for `give_legality_scope_walk`: inside the body of a top-level
function `f`, a give that carries an expression is accepted. -/
theorem give_legality_scope_walk_witness :
    Sem.visitGive Sem.functionBodyChain true = .ok () := by
  have hwf : Sem.WFChain Sem.functionBodyChain := by
    intro s enc h
    simp only [Sem.functionBodyChain, Sem.findSubroutineScope] at h
    simp at h
    obtain ⟨rfl, rfl⟩ := h
    refine ⟨by simp, fun _ => ⟨"f", rfl⟩, fun hc => by simp at hc⟩
  have h := ((give_legality_scope_walk Sem.functionBodyChain true hwf).2.1
    ⟨"f", .FUNCTION, 2, []⟩
    [⟨"global", .PROGRAM, 1, [("f", .funcSym "f")]⟩] rfl).1 rfl
  exact h.trans (by rfl)

/-- Claim C5.  Legality of `skip`/`stop`: the walk accepts exactly when some
scope on the chain (no matter how far up, and regardless of the kinds of
the intervening scopes) is a while-block scope, and rejects with the
skip-outside-while / stop-outside-while error exactly otherwise — in
particular inside an `if` block that is outside any loop. -/
theorem skip_stop_require_while_scope :
    (∀ chain : List Sem.Scope,
      (Sem.visitSkip chain = .ok () ↔ ∃ s ∈ chain, s.type = .WHILE_BLOCK)
      ∧ (Sem.visitSkip chain = .error .SEM_SKIP_STATEMENT_OUTSIDE_WHILE ↔
          ¬ ∃ s ∈ chain, s.type = .WHILE_BLOCK)
      ∧ (Sem.visitStop chain = .ok () ↔ ∃ s ∈ chain, s.type = .WHILE_BLOCK)
      ∧ (Sem.visitStop chain = .error .SEM_STOP_STATEMENT_OUTSIDE_WHILE ↔
          ¬ ∃ s ∈ chain, s.type = .WHILE_BLOCK))
    ∧ Sem.visitSkip Sem.ifOutsideLoopChain
        = .error .SEM_SKIP_STATEMENT_OUTSIDE_WHILE
    ∧ Sem.visitStop Sem.ifOutsideLoopChain
        = .error .SEM_STOP_STATEMENT_OUTSIDE_WHILE := by
  refine ⟨?_, by rfl, by rfl⟩
  intro chain
  refine ⟨?_, ?_, ?_, ?_⟩ <;>
    induction chain with
    | nil => simp [Sem.visitSkip, Sem.visitStop]
    | cons c cs ih =>
      by_cases h : c.type = Sem.ScopeType.WHILE_BLOCK <;>
        simp [Sem.visitSkip, Sem.visitStop, h, ih]

/-- Witness for `skip_stop_require_while_scope`: a `skip` directly inside a
while-block scope is accepted. -/
theorem skip_stop_require_while_scope_witness :
    Sem.visitSkip [⟨"while_statement_1", .WHILE_BLOCK, 2, []⟩,
      ⟨"global", .PROGRAM, 1, []⟩] = .ok () :=
  (skip_stop_require_while_scope.1 _).1.mpr
    ⟨⟨"while_statement_1", .WHILE_BLOCK, 2, []⟩, by simp, rfl⟩

/-- Claim C8, counterexample.  On the statement `f()` the parser does not
produce a function-call statement: the dispatch sends every identifier-led
statement to the assignment production, which consumes the identifier and
then fails on the `(` where it expects `=`. -/
theorem identifier_call_statement_rejected :
    Parse.statementOnIdentifier 30 Parse.bareCallState
      = some (.error (.unexpectedToken ⟨.LEFT_PARENTHESIS, some (.s "("), 1, 2⟩)) :=
  rfl

/-- Claim C8, amended.  The statement dispatch routes an identifier-led
statement directly to the assignment production with no lookahead: after
the identifier the next token must be `=`, otherwise the statement is
rejected with an unexpected-token error at that token (so a bare
function-call statement such as `f()` is not accepted; procedure calls are
keyword-led via `exec`); an assignment `x = 1` parses. -/
theorem identifier_statement_is_assignment :
    (∀ (fuel : Nat) (st : Parse.PState),
      Parse.statementOnIdentifier fuel st = Parse.assignmentStatement fuel st)
    ∧ (∀ (n : Nat) (st : Parse.PState),
      st.cur.type = .IDENTIFIER →
      (Parse.padvance st).cur.type ≠ .ASSIGN →
      Parse.statementOnIdentifier (n + 1) st
        = some (.error (.unexpectedToken (Parse.padvance st).cur)))
    ∧ Parse.statementOnIdentifier 30 Parse.assignState
      = some (.ok (.assignment (some (.s "x"))
          (.arithAsBool (.integerLiteral (some (.i 1)))),
          ⟨⟨.NEWLINE, some (.s "\n"), 1, 6⟩, []⟩)) := by
  refine ⟨fun fuel st => rfl, ?_, by rfl⟩
  intro n st h1 h2
  simp [Parse.statementOnIdentifier, Parse.assignmentStatement, Parse.consume,
    h1, h2]

/-- Witness for `identifier_statement_is_assignment` at the `f()` tokens. -/
theorem identifier_statement_is_assignment_witness :
    Parse.statementOnIdentifier 1 Parse.bareCallState
      = some (.error (.unexpectedToken ⟨.LEFT_PARENTHESIS, some (.s "("), 1, 2⟩)) := by
  have h := identifier_statement_is_assignment.2.1 0 Parse.bareCallState rfl
    (by decide)
  exact h.trans (by rfl)

/-- Claim C9, counterexample.  The input `"."` fails with an
invalid-**character** lexical error (at position 0, line 1, column 1), not
the claimed invalid-number-format error: `next_token` only enters number
scanning for a dot when the peeked character is a digit, and `.` is not in
the single-character token table.  On `"1."` the digit is scanned as the
integer literal `1` and the trailing `.` then fails the same way (position
1, line 1, column 2). -/
theorem lone_dot_invalid_character :
    Lex.tokenize "." = some (.error ⟨.INVALID_CHARACTER, 0, 1, 1⟩)
    ∧ Lex.tokenize "1." = some (.error ⟨.INVALID_CHARACTER, 1, 1, 2⟩) :=
  ⟨rfl, rfl⟩

/-- Claim C9, amended.  For every scanner state in which the character
about to be scanned (after whitespace skipping) is a decimal point not
followed by a digit, `next_token` fails with an invalid-character lexical
error carrying the position, line and column of that `.`; and inside
number scanning, a decimal point whose successor is not a digit (or a
second decimal point) is never consumed — the accumulation loop stops
right before it.  The two inputs of the original claim are instances:
`"."` fails this way at line 1, column 1, and on `"1."` the `1` first
becomes an integer token and the `.` then fails at line 1, column 2. -/
theorem dot_inputs_fail_invalid_character :
    (∀ (st : Lex.LexState) (cs : List Char),
      (Lex.skipWhitespace st).rest = '.' :: cs →
      Lex.peekIsDigit (Lex.skipWhitespace st) = false →
      Lex.nextToken st = some (.error
        ⟨.INVALID_CHARACTER, (Lex.skipWhitespace st).pos,
          (Lex.skipWhitespace st).line, (Lex.skipWhitespace st).col⟩))
    ∧ (∀ (cs : List Char) (st : Lex.LexState) (acc : List Char)
        (hasDot : Bool),
      hasDot = true ∨ Lex.peekIsDigit st = false →
      Lex.numberLoopGo ('.' :: cs) st acc hasDot = (acc, hasDot, st))
    ∧ Lex.tokenize "." = some (.error ⟨.INVALID_CHARACTER, 0, 1, 1⟩)
    ∧ Lex.nextToken (Lex.initLexState "1.")
        = some (.ok (⟨.INT_LITERAL, some (.i 1), 1, 1⟩, ⟨['.'], 1, 1, 2⟩))
    ∧ Lex.nextToken ⟨['.'], 1, 1, 2⟩
        = some (.error ⟨.INVALID_CHARACTER, 1, 1, 2⟩)
    ∧ Lex.tokenize "1." = some (.error ⟨.INVALID_CHARACTER, 1, 1, 2⟩) := by
  refine ⟨?_, ?_, rfl, rfl, rfl, rfl⟩
  · intro st cs hr hpeek
    have hops : Lex.tokenizeMultiCharOperator (Lex.skipWhitespace st) = none := by
      simp [Lex.tokenizeMultiCharOperator, Lex.tryOperators,
        Lex.multiCharOperators, Lex.matchesOperator, hr]
    have hsingle : Lex.singleCharLookup '.' = none := rfl
    simp only [Lex.nextToken, Lex.nextTokenGo, hr]
    simp [hpeek, hops, hsingle]
  · intro cs st acc hasDot h
    rcases h with rfl | hm
    · simp [Lex.numberLoopGo]
    · simp [Lex.numberLoopGo, hm]

/-- Witness for `dot_inputs_fail_invalid_character`: the lone-dot input
instantiates the universal invalid-character conclusion, and the
number-scanning loop at the `.` of `"1."` stops without consuming it. -/
theorem dot_inputs_fail_invalid_character_witness :
    Lex.nextToken (Lex.initLexState ".")
      = some (.error ⟨.INVALID_CHARACTER, 0, 1, 1⟩)
    ∧ Lex.numberLoopGo ['.'] ⟨['.'], 1, 1, 2⟩ ['1'] false
      = (['1'], false, ⟨['.'], 1, 1, 2⟩) :=
  ⟨(dot_inputs_fail_invalid_character.1 (Lex.initLexState ".") [] (by rfl)
      (by rfl)).trans (by rfl),
    dot_inputs_fail_invalid_character.2.1 [] ⟨['.'], 1, 1, 2⟩ ['1'] false
      (Or.inr (by rfl))⟩

theorem advance_rest (st : Lex.LexState) : (Lex.advance st).rest = st.rest.tail := by
  cases hr : st.rest with
  | nil => simp [Lex.advance, hr]
  | cons c cs =>
    by_cases hc : c = '\n' <;> simp [Lex.advance, hr, hc]

theorem advance_rest_length (st : Lex.LexState) :
    (Lex.advance st).rest.length = st.rest.length - 1 := by
  rw [advance_rest, List.length_tail]

theorem skipWhitespaceGo_length :
    ∀ (cs : List Char) (st : Lex.LexState), st.rest = cs →
      (Lex.skipWhitespaceGo cs st).rest.length ≤ cs.length := by
  intro cs
  induction cs with
  | nil => intro st h; simp [Lex.skipWhitespaceGo, h]
  | cons c cs ih =>
    intro st h
    simp only [Lex.skipWhitespaceGo]
    split
    · have hadv : (Lex.advance st).rest = cs := by
        rw [advance_rest, h]; rfl
      exact le_trans (ih (Lex.advance st) hadv) (Nat.le_succ _)
    · rw [h]

theorem skipWhitespace_length (st : Lex.LexState) :
    (Lex.skipWhitespace st).rest.length ≤ st.rest.length :=
  skipWhitespaceGo_length st.rest st rfl

theorem skipCommentGo_length :
    ∀ (cs : List Char) (st : Lex.LexState), st.rest = cs →
      (Lex.skipCommentGo cs st).rest.length ≤ cs.length := by
  intro cs
  induction cs with
  | nil => intro st h; simp [Lex.skipCommentGo, h]
  | cons c cs ih =>
    intro st h
    simp only [Lex.skipCommentGo]
    split
    · have hadv : (Lex.advance st).rest = cs := by
        rw [advance_rest, h]; rfl
      exact le_trans (ih (Lex.advance st) hadv) (Nat.le_succ _)
    · rw [h]

theorem skipComment_length (st : Lex.LexState) (h : st.rest ≠ []) :
    (Lex.skipComment st).rest.length < st.rest.length := by
  have h1 : (Lex.advance st).rest.length < st.rest.length := by
    rw [advance_rest_length]
    cases hr : st.rest with
    | nil => exact absurd hr h
    | cons c cs => simp [hr]
  calc (Lex.skipComment st).rest.length
      ≤ (Lex.advance st).rest.length :=
        skipCommentGo_length (Lex.advance st).rest (Lex.advance st) rfl
    _ < st.rest.length := h1

theorem skipNewlinesGo_length :
    ∀ (cs : List Char) (st : Lex.LexState), st.rest = cs →
      (Lex.skipNewlinesGo cs st).rest.length ≤ cs.length := by
  intro cs
  induction cs with
  | nil => intro st h; simp [Lex.skipNewlinesGo, h]
  | cons c cs ih =>
    intro st h
    simp only [Lex.skipNewlinesGo]
    split
    · have hadv : (Lex.advance st).rest = cs := by
        rw [advance_rest, h]; rfl
      exact le_trans (ih (Lex.advance st) hadv) (Nat.le_succ _)
    · rw [h]

theorem numberLoopGo_length :
    ∀ (cs : List Char) (st : Lex.LexState) (acc : List Char) (hd : Bool),
      st.rest = cs →
      (Lex.numberLoopGo cs st acc hd).2.2.rest.length
        + (Lex.numberLoopGo cs st acc hd).1.length
        = cs.length + acc.length := by
  intro cs
  induction cs with
  | nil =>
    intro st acc hd h
    simp [Lex.numberLoopGo, h]
  | cons c cs ih =>
    intro st acc hd h
    have hadv : (Lex.advance st).rest = cs := by
      rw [advance_rest, h]; rfl
    simp only [Lex.numberLoopGo]
    split
    · split
      · split
        · simp [h]
        · rw [ih (Lex.advance st) (acc ++ [c]) true hadv]
          simp
          omega
      · rw [ih (Lex.advance st) (acc ++ [c]) hd hadv]
        simp
        omega
    · simp [h]

theorem tokenizeNumber_progress (st : Lex.LexState) (t : Lex.Token)
    (st' : Lex.LexState) (h : Lex.tokenizeNumber st = .ok (t, st')) :
    st'.rest.length < st.rest.length ∧ t.type ≠ Lex.TokenType.EOF := by
  revert h
  unfold Lex.tokenizeNumber
  cases hn : Lex.numberLoopGo st.rest st [] false with
  | mk number rest0 =>
    obtain ⟨hasDot, stE⟩ := rest0
    have hlen := numberLoopGo_length st.rest st [] false rfl
    rw [hn] at hlen
    simp only [List.length_nil, Nat.add_zero] at hlen
    intro h
    by_cases hne : number = [] || number = ['.']
    · simp [hne] at h
    · have hnum : number ≠ [] := by
        intro hc
        subst hc
        simp at hne
      have hpos : 0 < number.length := List.length_pos.mpr hnum
      cases hasDot with
      | false =>
        simp [hne] at h
        obtain ⟨ht, hst⟩ := h
        subst hst
        refine ⟨by omega, ?_⟩
        rw [← ht]
        simp
      | true =>
        simp [hne] at h
        obtain ⟨ht, hst⟩ := h
        subst hst
        refine ⟨by omega, ?_⟩
        rw [← ht]
        simp

theorem stringLoopGo_length :
    ∀ (n : Nat) (cs : List Char), cs.length ≤ n →
      ∀ (st : Lex.LexState) (q : Char) (acc acc' : List Char)
        (st' : Lex.LexState), st.rest = cs →
        Lex.stringLoopGo cs st q acc = .ok (acc', st') →
        st'.rest.length ≤ cs.length := by
  intro n
  induction n with
  | zero =>
    intro cs hn st q acc acc' st' h hok
    have : cs = [] := List.eq_nil_of_length_eq_zero (Nat.le_zero.mp hn)
    subst this
    simp [Lex.stringLoopGo] at hok
    obtain ⟨-, rfl⟩ := hok
    simp [h]
  | succ m ih =>
    intro cs hn st q acc acc' st' h hok
    cases cs with
    | nil =>
      simp [Lex.stringLoopGo] at hok
      obtain ⟨-, rfl⟩ := hok
      simp [h]
    | cons c cs =>
      have hadv : (Lex.advance st).rest = cs := by
        rw [advance_rest, h]; rfl
      simp only [Lex.stringLoopGo] at hok
      by_cases h1 : c = q
      · rw [if_pos h1] at hok
        obtain ⟨-, hs⟩ := Prod.mk.inj (Except.ok.inj hok)
        subst hs
        rw [h]
      · rw [if_neg h1] at hok
        by_cases h2 : c = '\n'
        · rw [if_pos h2] at hok
          simp at hok
        · rw [if_neg h2] at hok
          by_cases h3 : c = '\\'
          · rw [if_pos h3] at hok
            cases cs with
            | nil => simp at hok
            | cons e cs' =>
              simp only at hok
              have hadv2 : (Lex.advance (Lex.advance st)).rest = cs' := by
                rw [advance_rest, hadv]; rfl
              have hm : cs'.length ≤ m := by
                simp only [List.length_cons] at hn
                omega
              have hrec := ih cs' hm (Lex.advance (Lex.advance st)) q
                (acc ++ [Lex.escapeChar e]) acc' st' hadv2 hok
              simp only [List.length_cons]
              omega
          · rw [if_neg h3] at hok
            have hm : cs.length ≤ m := by
              simp only [List.length_cons] at hn
              omega
            have hrec := ih cs hm (Lex.advance st) q (acc ++ [c]) acc' st'
              hadv hok
            simp only [List.length_cons]
            omega

theorem tokenizeString_progress (st : Lex.LexState) (t : Lex.Token)
    (st' : Lex.LexState) (hne : st.rest ≠ [])
    (h : Lex.tokenizeString st = .ok (t, st')) :
    st'.rest.length < st.rest.length ∧ t.type ≠ Lex.TokenType.EOF := by
  revert h
  unfold Lex.tokenizeString
  cases hr : st.rest with
  | nil => exact absurd hr hne
  | cons q cs =>
    have hadv : (Lex.advance st).rest = cs := by
      rw [advance_rest, hr]; rfl
    intro h
    cases hsl : Lex.stringLoopGo (Lex.advance st).rest (Lex.advance st) q []
      with
    | error e => simp [hsl] at h
    | ok p =>
      obtain ⟨acc, st2⟩ := p
      have h2 : st2.rest.length ≤ cs.length := by
        rw [hadv] at hsl
        exact stringLoopGo_length cs.length cs le_rfl (Lex.advance st) q []
          acc st2 hadv hsl
      simp only [hsl] at h
      cases hr2 : st2.rest with
      | nil => simp [hr2] at h
      | cons c2 cs2 =>
        simp only [hr2] at h
        by_cases hq : c2 = q
        · simp [hq] at h
          obtain ⟨ht, hst⟩ := h
          subst hst
          constructor
          · have e1 := advance_rest_length st2
            have e2 : st2.rest.length = cs2.length + 1 := by rw [hr2]; simp
            have e3 : st.rest.length = cs.length + 1 := by rw [hr]; simp
            have e4 : (q :: cs).length = cs.length + 1 := by simp
            omega
          · rw [← ht]; simp
        · simp [hq] at h

theorem identLoopGo_length :
    ∀ (cs : List Char) (st : Lex.LexState) (acc : List Char), st.rest = cs →
      (Lex.identLoopGo cs st acc).2.rest.length
        + (Lex.identLoopGo cs st acc).1.length
        = cs.length + acc.length := by
  intro cs
  induction cs with
  | nil =>
    intro st acc h
    simp [Lex.identLoopGo, h]
  | cons c cs ih =>
    intro st acc h
    have hadv : (Lex.advance st).rest = cs := by
      rw [advance_rest, h]; rfl
    simp only [Lex.identLoopGo]
    split
    · rw [ih (Lex.advance st) (acc ++ [c]) hadv]
      simp
      omega
    · simp [h]

theorem dictGet_value_prop {α : Type} (P : α → Prop) :
    ∀ (l : List (String × α)), (∀ x ∈ l, P x.2) →
      ∀ (s : String) (v : α), Interp.dictGet l s = some v → P v := by
  intro l hl s v h
  unfold Interp.dictGet at h
  cases hf : l.find? (fun p => p.1 == s) with
  | none => simp [hf] at h
  | some p =>
    have hmem := List.mem_of_find?_eq_some hf
    simp [hf] at h
    exact h ▸ hl p hmem

theorem tokenizeIdentifier_progress (st : Lex.LexState) (t : Lex.Token)
    (st' : Lex.LexState) (c : Char) (cs : List Char)
    (hrest : st.rest = c :: cs) (hc : (c.isAlpha || c = '_') = true)
    (h : Lex.tokenizeIdentifier st = (t, st')) :
    st'.rest.length < st.rest.length ∧ t.type ≠ Lex.TokenType.EOF := by
  have hstep : (c.isAlphanum || c = '_') = true := by
    cases h1 : c.isAlpha <;> cases h2 : decide (c = '_') <;>
      simp_all [Char.isAlphanum]
  have hadv : (Lex.advance st).rest = cs := by
    rw [advance_rest, hrest]; rfl
  have hloop : Lex.identLoopGo st.rest st []
      = Lex.identLoopGo cs (Lex.advance st) [c] := by
    rw [hrest]
    simp [Lex.identLoopGo, hstep]
  have hlen := identLoopGo_length cs (Lex.advance st) [c] hadv
  have hgrow : ∀ (cs0 : List Char) (st0 : Lex.LexState) (acc : List Char),
      acc.length ≤ (Lex.identLoopGo cs0 st0 acc).1.length := by
    intro cs0
    induction cs0 with
    | nil => intro st0 acc; simp [Lex.identLoopGo]
    | cons c0 cs0 ih =>
      intro st0 acc
      simp only [Lex.identLoopGo]
      split
      · exact le_trans (by simp) (ih (Lex.advance st0) (acc ++ [c0]))
      · simp
  have hg := hgrow cs (Lex.advance st) [c]
  revert h
  unfold Lex.tokenizeIdentifier
  rw [hloop]
  cases hres : Lex.identLoopGo cs (Lex.advance st) [c] with
  | mk acc stE =>
    rw [hres] at hlen hg
    simp only [List.length_cons, List.length_nil, Nat.zero_add] at hlen hg
    intro h
    have hlt : stE.rest.length < st.rest.length := by
      rw [hrest]
      simp only [List.length_cons]
      omega
    have htype : ∀ tt, Interp.dictGet Lex.reservedKeywords (String.mk acc) = some tt →
        tt ≠ Lex.TokenType.EOF := by
      intro tt htt
      refine dictGet_value_prop (fun x => x ≠ Lex.TokenType.EOF)
        Lex.reservedKeywords ?_ (String.mk acc) tt htt
      decide
    by_cases h1 : String.mk acc = "true"
    · simp [h1] at h
      obtain ⟨ht, hst⟩ := h
      subst hst
      exact ⟨hlt, by rw [← ht]; simp⟩
    · by_cases h2 : String.mk acc = "false"
      · simp [h1, h2] at h
        obtain ⟨ht, hst⟩ := h
        subst hst
        exact ⟨hlt, by rw [← ht]; simp⟩
      · simp only [h1, h2, if_false] at h
        cases hk : Interp.dictGet Lex.reservedKeywords (String.mk acc) with
        | some tt =>
          simp [hk] at h
          obtain ⟨ht, hst⟩ := h
          subst hst
          exact ⟨hlt, by rw [← ht]; simpa using htype tt hk⟩
        | none =>
          simp [hk] at h
          obtain ⟨ht, hst⟩ := h
          subst hst
          exact ⟨hlt, by rw [← ht]; simp⟩

theorem matchesOperator_length :
    ∀ (os cs : List Char), Lex.matchesOperator os cs = true →
      os.length ≤ cs.length := by
  intro os
  induction os with
  | nil => intro cs h; simp
  | cons o os ih =>
    intro cs h
    cases cs with
    | nil => simp [Lex.matchesOperator] at h
    | cons c cs =>
      simp only [Lex.matchesOperator, Bool.and_eq_true] at h
      simpa using ih cs h.2

theorem advanceN_rest_length (n : Nat) :
    ∀ st : Lex.LexState, (Lex.advanceN n st).rest.length = st.rest.length - n := by
  induction n with
  | zero => intro st; simp [Lex.advanceN]
  | succ m ih =>
    intro st
    simp only [Lex.advanceN]
    rw [ih (Lex.advance st), advance_rest_length]
    omega

theorem tryOperators_progress :
    ∀ (l : List (String × Lex.TokenType)) (st : Lex.LexState) (t : Lex.Token)
      (st' : Lex.LexState),
      (∀ x ∈ l, x.1.toList.length = 2 ∧ x.2 ≠ Lex.TokenType.EOF) →
      Lex.tryOperators l st = some (t, st') →
      st'.rest.length < st.rest.length ∧ t.type ≠ Lex.TokenType.EOF := by
  intro l
  induction l with
  | nil => intro st t st' hl h; simp [Lex.tryOperators] at h
  | cons p rest ih =>
    intro st t st' hl h
    obtain ⟨op, tt⟩ := p
    simp only [Lex.tryOperators] at h
    split at h
    · rename_i hmatch
      obtain ⟨hlen2, hne⟩ := hl (op, tt) (by simp)
      have hge := matchesOperator_length op.toList st.rest hmatch
      simp only [Option.some.injEq, Prod.mk.injEq] at h
      obtain ⟨ht, hst⟩ := h
      subst hst
      constructor
      · rw [advanceN_rest_length]
        have hop2 : op.length = 2 :=
          (rfl : op.length = op.toList.length).trans hlen2
        have hge2 : 2 ≤ st.rest.length := hlen2 ▸ hge
        omega
      · rw [← ht]
        simpa using hne
    · exact ih st t st' (fun x hx => hl x (by simp [hx])) h

theorem singleCharLookup_ne_eof (c : Char) (tt : Lex.TokenType)
    (h : Lex.singleCharLookup c = some tt) : tt ≠ Lex.TokenType.EOF := by
  unfold Lex.singleCharLookup at h
  cases hf : Lex.singleCharTokenTypes.find? (fun p => p.1 == c) with
  | none => simp [hf] at h
  | some p =>
    have hmem := List.mem_of_find?_eq_some hf
    have : ∀ x ∈ Lex.singleCharTokenTypes, x.2 ≠ Lex.TokenType.EOF := by decide
    simp [hf] at h
    exact h ▸ this p hmem

theorem skipNewlines_length (st : Lex.LexState) :
    (Lex.skipNewlines st).rest.length ≤ st.rest.length :=
  skipNewlinesGo_length st.rest st rfl

theorem nextTokenGo_progress :
    ∀ (fuel : Nat) (st : Lex.LexState), st.rest.length < fuel →
      ∃ r, Lex.nextTokenGo fuel st = some r ∧
        ∀ (t : Lex.Token) (st' : Lex.LexState), r = .ok (t, st') →
          (t.type = Lex.TokenType.EOF ∧ st'.rest = []) ∨
          (t.type ≠ Lex.TokenType.EOF ∧ st'.rest.length < st.rest.length) := by
  intro fuel
  induction fuel with
  | zero => intro st h; exact absurd h (Nat.not_lt_zero _)
  | succ n ih =>
    intro st hf
    have hw : (Lex.skipWhitespace st).rest.length ≤ st.rest.length :=
      skipWhitespace_length st
    cases hr : (Lex.skipWhitespace st).rest with
    | nil =>
      simp only [Lex.nextTokenGo, hr]
      refine ⟨_, rfl, ?_⟩
      intro t st' heq
      obtain ⟨ht, hst⟩ := Prod.mk.inj (Except.ok.inj heq)
      left
      rw [← ht, ← hst]
      exact ⟨rfl, hr⟩
    | cons c cs =>
      have hlen1 : (Lex.skipWhitespace st).rest.length = cs.length + 1 := by
        rw [hr]; simp
      have hadv : (Lex.advance (Lex.skipWhitespace st)).rest = cs := by
        rw [advance_rest, hr]; rfl
      simp only [Lex.nextTokenGo, hr]
      by_cases hc1 : c = '#'
      · rw [if_pos hc1]
        have hcm : (Lex.skipComment (Lex.skipWhitespace st)).rest.length < n := by
          have := skipComment_length (Lex.skipWhitespace st) (by rw [hr]; simp)
          omega
        obtain ⟨r, hr1, hp⟩ := ih (Lex.skipComment (Lex.skipWhitespace st)) hcm
        refine ⟨r, hr1, ?_⟩
        intro t st' heq
        rcases hp t st' heq with h | ⟨hne, hlt⟩
        · exact Or.inl h
        · right
          refine ⟨hne, ?_⟩
          have := skipComment_length (Lex.skipWhitespace st) (by rw [hr]; simp)
          omega
      · rw [if_neg hc1]
        by_cases hc2 : c = '\n'
        · rw [if_pos hc2]
          refine ⟨_, rfl, ?_⟩
          intro t st' heq
          obtain ⟨ht, hst⟩ := Prod.mk.inj (Except.ok.inj heq)
          right
          constructor
          · rw [← ht]; simp
          · rw [← hst]
            have h1 := skipNewlines_length (Lex.advance (Lex.skipWhitespace st))
            rw [hadv] at h1
            omega
        · rw [if_neg hc2]
          by_cases hc3 : (c.isDigit || (c = '.' && Lex.peekIsDigit (Lex.skipWhitespace st))) = true
          · rw [if_pos hc3]
            refine ⟨_, rfl, ?_⟩
            intro t st' heq
            have := tokenizeNumber_progress (Lex.skipWhitespace st) t st' heq
            right
            exact ⟨this.2, by omega⟩
          · rw [if_neg hc3]
            by_cases hc4 : (c = '\'' || c = '"') = true
            · rw [if_pos hc4]
              refine ⟨_, rfl, ?_⟩
              intro t st' heq
              have := tokenizeString_progress (Lex.skipWhitespace st) t st'
                (by rw [hr]; simp) heq
              right
              exact ⟨this.2, by omega⟩
            · rw [if_neg hc4]
              by_cases hc5 : (c.isAlpha || c = '_') = true
              · rw [if_pos hc5]
                refine ⟨_, rfl, ?_⟩
                intro t st' heq
                have hpair : Lex.tokenizeIdentifier (Lex.skipWhitespace st) = (t, st') :=
                  Except.ok.inj heq
                have := tokenizeIdentifier_progress (Lex.skipWhitespace st) t st'
                  c cs hr hc5 hpair
                right
                exact ⟨this.2, by omega⟩
              · rw [if_neg hc5]
                cases hop : Lex.tokenizeMultiCharOperator (Lex.skipWhitespace st) with
                | some p =>
                  obtain ⟨t0, st0⟩ := p
                  refine ⟨_, rfl, ?_⟩
                  intro t st' heq
                  obtain ⟨ht, hst⟩ := Prod.mk.inj (Except.ok.inj heq)
                  have htable : ∀ x ∈ Lex.multiCharOperators,
                      x.1.toList.length = 2 ∧ x.2 ≠ Lex.TokenType.EOF := by decide
                  have := tryOperators_progress Lex.multiCharOperators
                    (Lex.skipWhitespace st) t0 st0 htable hop
                  right
                  rw [← ht, ← hst]
                  exact ⟨this.2, by omega⟩
                | none =>
                  cases hsc : Lex.singleCharLookup c with
                  | some tt =>
                    refine ⟨_, rfl, ?_⟩
                    intro t st' heq
                    obtain ⟨ht, hst⟩ := Prod.mk.inj (Except.ok.inj heq)
                    right
                    constructor
                    · rw [← ht]
                      simpa using singleCharLookup_ne_eof c tt hsc
                    · rw [← hst, advance_rest_length]
                      omega
                  | none =>
                    refine ⟨_, rfl, ?_⟩
                    intro t st' heq
                    simp at heq

theorem nextToken_progress (st : Lex.LexState) :
    ∃ r, Lex.nextToken st = some r ∧
      ∀ (t : Lex.Token) (st' : Lex.LexState), r = .ok (t, st') →
        (t.type = Lex.TokenType.EOF ∧ st'.rest = []) ∨
        (t.type ≠ Lex.TokenType.EOF ∧ st'.rest.length < st.rest.length) :=
  nextTokenGo_progress (st.rest.length + 1) st (Nat.lt_succ_self _)

theorem tokenizeGo_progress :
    ∀ (fuel : Nat) (st : Lex.LexState), st.rest.length < fuel →
      ∃ r, Lex.tokenizeGo fuel st = some r ∧
        ∀ ts, r = .ok ts →
          ts ≠ [] ∧ ts.getLast?.map Lex.Token.type = some Lex.TokenType.EOF
          ∧ ∀ t ∈ ts.dropLast, t.type ≠ Lex.TokenType.EOF := by
  intro fuel
  induction fuel with
  | zero => intro st h; exact absurd h (Nat.not_lt_zero _)
  | succ n ih =>
    intro st hf
    obtain ⟨r0, hrun0, hp0⟩ := nextToken_progress st
    cases r0 with
    | error e =>
      simp only [Lex.tokenizeGo, hrun0]
      exact ⟨.error e, rfl, by intro ts h; simp at h⟩
    | ok p =>
      obtain ⟨t, st'⟩ := p
      simp only [Lex.tokenizeGo, hrun0]
      by_cases heof : t.type = Lex.TokenType.EOF
      · rw [if_pos heof]
        refine ⟨.ok [t], rfl, ?_⟩
        intro ts hts
        obtain rfl := Except.ok.inj hts
        exact ⟨by simp, by simp [heof], by simp⟩
      · rw [if_neg heof]
        rcases hp0 t st' rfl with ⟨hE, -⟩ | ⟨-, hlt⟩
        · exact absurd hE heof
        · have hfn : st'.rest.length < n := by omega
          obtain ⟨r1, hrun1, hp1⟩ := ih st' hfn
          cases r1 with
          | error e =>
            simp only [hrun1]
            exact ⟨.error e, rfl, by intro ts h; simp at h⟩
          | ok ts1 =>
            simp only [hrun1]
            refine ⟨.ok (t :: ts1), rfl, ?_⟩
            intro ts hts
            obtain rfl := Except.ok.inj hts
            obtain ⟨hne1, hlast1, hdrop1⟩ := hp1 ts1 rfl
            refine ⟨by simp, ?_, ?_⟩
            · cases ts1 with
              | nil => exact absurd rfl hne1
              | cons b l => simpa using hlast1
            · intro x hx
              cases ts1 with
              | nil => exact absurd rfl hne1
              | cons b l =>
                rw [List.dropLast_cons₂] at hx
                rcases List.mem_cons.mp hx with rfl | hx'
                · exact heof
                · exact hdrop1 x hx'

/-- Claim C10.  The scanner terminates on every finite input: `next_token`
always completes, and it either fails with a lexical error, returns the EOF
token with the scan position past the end of the input, or returns a
non-EOF token having consumed at least one character; consequently
`tokenize` always completes, and when it succeeds the returned token list
is nonempty, ends in an EOF token, and contains no EOF token before its
last position. -/
theorem tokenize_terminates_structure :
    (∀ st : Lex.LexState, ∃ r, Lex.nextToken st = some r)
    ∧ (∀ (st : Lex.LexState) (t : Lex.Token) (st' : Lex.LexState),
        Lex.nextToken st = some (.ok (t, st')) →
          (t.type = Lex.TokenType.EOF ∧ st'.rest = []) ∨
          (t.type ≠ Lex.TokenType.EOF ∧ st'.rest.length < st.rest.length))
    ∧ (∀ text : String, ∃ r, Lex.tokenize text = some r)
    ∧ (∀ (text : String) (ts : List Lex.Token),
        Lex.tokenize text = some (.ok ts) →
          ts ≠ [] ∧ ts.getLast?.map Lex.Token.type = some Lex.TokenType.EOF
          ∧ ∀ t ∈ ts.dropLast, t.type ≠ Lex.TokenType.EOF) := by
  have hinit : ∀ text : String,
      (Lex.initLexState text).rest.length < text.length + 1 := by
    intro text
    have : (Lex.initLexState text).rest.length = text.length := rfl
    omega
  refine ⟨?_, ?_, ?_, ?_⟩
  · intro st
    obtain ⟨r, hr, -⟩ := nextToken_progress st
    exact ⟨r, hr⟩
  · intro st t st' h
    obtain ⟨r, hr, hp⟩ := nextToken_progress st
    rw [h] at hr
    exact hp t st' (Option.some.inj hr).symm
  · intro text
    obtain ⟨r, hr, -⟩ :=
      tokenizeGo_progress (text.length + 1) (Lex.initLexState text) (hinit text)
    exact ⟨r, hr⟩
  · intro text ts h
    obtain ⟨r, hr, hp⟩ :=
      tokenizeGo_progress (text.length + 1) (Lex.initLexState text) (hinit text)
    have h' : Lex.tokenizeGo (text.length + 1) (Lex.initLexState text)
        = some (.ok ts) := h
    exact hp ts (Option.some.inj (hr.symm.trans h'))

/-- Witness for `tokenize_terminates_structure` on the source text `"x"`. -/
theorem tokenize_terminates_structure_witness :
    ([⟨.IDENTIFIER, some (.s "x"), 1, 1⟩, ⟨.EOF, none, 1, 2⟩] : List Lex.Token) ≠ []
    ∧ ([⟨.IDENTIFIER, some (.s "x"), 1, 1⟩, ⟨.EOF, none, 1, 2⟩] :
        List Lex.Token).getLast?.map Lex.Token.type = some Lex.TokenType.EOF
    ∧ ∀ t ∈ ([⟨.IDENTIFIER, some (.s "x"), 1, 1⟩, ⟨.EOF, none, 1, 2⟩] :
        List Lex.Token).dropLast, t.type ≠ Lex.TokenType.EOF :=
  tokenize_terminates_structure.2.2.2 "x"
    [⟨.IDENTIFIER, some (.s "x"), 1, 1⟩, ⟨.EOF, none, 1, 2⟩] (by rfl)

/-- Witness for `call_boundary_give_protocol`: calling
`func f() -> number { give 1 }` in `givingFunctionState` yields `1` with
the pushed record popped again. -/
theorem call_boundary_give_protocol_witness :
    Interp.callFunction 4 "f" [] Interp.givingFunctionState
      = some (.ok (.int 1),
          { Interp.givingFunctionState with
            callStack := [⟨"program", .PROGRAM, 1, []⟩] }) := by
  have h := (call_boundary_give_protocol 3 "f" Interp.givingFunctionState
    ⟨"program", .PROGRAM, 1, []⟩ [] (.give (some (.int 1)))
    { Interp.givingFunctionState with
      callStack :=
        [⟨"f", .FUNCTION, 2, []⟩, ⟨"program", .PROGRAM, 1, []⟩] }
    ⟨"f", [], .number, [.give (some (.intLit 1))]⟩ ⟨"p", [], []⟩ rfl).1
    rfl (by rfl)
  exact (h.1 (.int 1) rfl).trans (by rfl)

/-- Claim C6.  Binary arithmetic: `+` concatenates the `str()` forms when
either operand is a string and adds numerically otherwise; `7 // 2 = 3`,
`7 % 2 = 1`, `2 ** 3 = 8`, `"a" + 1 = "a1"`; `5 / 0` fails with
division-by-zero; and for `/`, `//`, `%` the division/modulo-by-zero
runtime error is raised iff the right operand equals zero. -/
theorem binary_arithmetic_behavior :
    (∀ l r : Interp.Value, (l.isStr || r.isStr) = true →
      Interp.applyBinaryArithmetic "+" l r = .ok (.str (l.pyStr ++ r.pyStr)))
    ∧ (∀ z1 z2 : Int,
      Interp.applyBinaryArithmetic "+" (.int z1) (.int z2) = .ok (.int (z1 + z2)))
    ∧ (∀ q1 q2 : ℚ,
      Interp.applyBinaryArithmetic "+" (.float q1) (.float q2) = .ok (.float (q1 + q2)))
    ∧ (∀ (n : Nat) (st : Interp.State),
      Interp.evalExpr (n + 2) (.binArith (.intLit 7) "//" (.intLit 2)) st
        = some (.ok (.int 3), st)
      ∧ Interp.evalExpr (n + 2) (.binArith (.intLit 7) "%" (.intLit 2)) st
        = some (.ok (.int 1), st)
      ∧ Interp.evalExpr (n + 2) (.binArith (.intLit 2) "**" (.intLit 3)) st
        = some (.ok (.int 8), st)
      ∧ Interp.evalExpr (n + 2) (.binArith (.intLit 5) "/" (.intLit 0)) st
        = some (.ex (.rte .DIVISION_BY_ZERO), st)
      ∧ Interp.evalExpr (n + 2) (.binArith (.strLit "a") "+" (.intLit 1)) st
        = some (.ok (.str "a1"), st))
    ∧ (∀ l r : Interp.Value, ∀ op ∈ (["/", "//", "%"] : List String),
      (Interp.applyBinaryArithmetic op l r = .error (.rte .DIVISION_BY_ZERO) ↔
        r.isZero = true)) := by
  refine ⟨?_, ?_, ?_, ?_, ?_⟩
  · intro l r h
    simp [Interp.applyBinaryArithmetic, h]
  · intro z1 z2
    simp [Interp.applyBinaryArithmetic, Interp.Value.isStr, Interp.Value.toNum,
      Interp.numAdd, Interp.PyNum.toValue]
  · intro q1 q2
    simp [Interp.applyBinaryArithmetic, Interp.Value.isStr, Interp.Value.toNum,
      Interp.numAdd, Interp.PyNum.toValue, Interp.PyNum.toQ]
  · intro n st
    refine ⟨?_, ?_, ?_, ?_, ?_⟩ <;> (simp only [Interp.evalExpr]; rfl)
  · intro l r op hop
    have hops : op = "/" ∨ op = "//" ∨ op = "%" := by simpa using hop
    rcases hops with rfl | rfl | rfl <;>
      cases l <;> cases r <;>
        simp [Interp.applyBinaryArithmetic, Interp.Value.isZero,
          Interp.Value.toNum]

/-- Witness for `binary_arithmetic_behavior` at `"a" + 1`. -/
theorem binary_arithmetic_behavior_witness :
    Interp.applyBinaryArithmetic "+" (.str "a") (.int 1) = .ok (.str "a1") :=
  binary_arithmetic_behavior.1 (.str "a") (.int 1) rfl

/-- Claim C7.  Boolean binary operators short-circuit: when the left operand
of `and` evaluates to false the result is false and the right operand is
not evaluated (the resulting state is exactly the post-left state, for
every right operand); dually for `or` with a true left operand; otherwise
the result is the truth value of the right operand. -/
theorem boolean_short_circuit :
    ∀ (n : Nat) (l r : Interp.Expr) (st st1 : Interp.State),
      (Interp.evalBoolExpr n l st = some (.ok false, st1) →
        Interp.evalExpr (n + 1) (.binBool l "and" r) st
          = some (.ok (.bool false), st1))
      ∧ (Interp.evalBoolExpr n l st = some (.ok true, st1) →
        Interp.evalExpr (n + 1) (.binBool l "or" r) st
          = some (.ok (.bool true), st1))
      ∧ (Interp.evalBoolExpr n l st = some (.ok true, st1) →
        Interp.evalExpr (n + 1) (.binBool l "and" r) st
          = (match Interp.evalBoolExpr n r st1 with
             | none => none
             | some (.error e, st2) => some (.ex e, st2)
             | some (.ok b2, st2) => some (.ok (.bool b2), st2)))
      ∧ (Interp.evalBoolExpr n l st = some (.ok false, st1) →
        Interp.evalExpr (n + 1) (.binBool l "or" r) st
          = (match Interp.evalBoolExpr n r st1 with
             | none => none
             | some (.error e, st2) => some (.ex e, st2)
             | some (.ok b2, st2) => some (.ok (.bool b2), st2))) := by
  intro n l r st st1
  refine ⟨?_, ?_, ?_, ?_⟩ <;> intro h <;> simp [Interp.evalExpr, h]

/-- Witness for `boolean_short_circuit`: `false and zz` evaluates to false
in the empty state without touching `zz` (whose evaluation would be a
host-level failure there). -/
theorem boolean_short_circuit_witness :
    Interp.evalExpr 3 (.binBool (.boolLit false) "and" (.ident "zz"))
      Interp.initState = some (.ok (.bool false), Interp.initState) :=
  (boolean_short_circuit 2 (.boolLit false) (.ident "zz")
    Interp.initState Interp.initState).1 (by rfl)
